import Mathlib

/-!
Paging core of the kernel: frame bitmap, page directory, fault handler.

A shallow embedding of `kernel/paging.c`.

* `uint32_t` values are natural numbers; a value that is passed as, or
  computed into, a `uint32_t` is reduced with `u32` (modulo `2^32`).
* The global `frames` is a list of 32-bit words.  A read past the end of the
  list yields `0` and a write past the end is dropped; the statements below
  that depend on an access say that it is inside the list.
* The global `nframes` is a parameter of `first_frame` and `alloc_frame`.
* A `Page*` argument is modelled by passing the entry in and returning the
  updated entry.
* A pointer to a page table is modelled by the table it points to; the
  allocator `kmalloc_ap` and the control registers are explicit state.
-/

namespace Paging

/-! ## Machine words -/

/-- Truncation of a natural number to a `uint32_t`. -/
def u32 (n : Nat) : Nat := n % 2 ^ 32

/-- The macro `INDEX_FROM_BIT(a)`, that is `(a/(8*4))`. -/
def INDEX_FROM_BIT (a : Nat) : Nat := a / (8 * 4)

/-- The macro `OFFSET_FROM_BIT(a)`, that is `(a%(8*4))`. -/
def OFFSET_FROM_BIT (a : Nat) : Nat := a % (8 * 4)

/-! ## Frame bitmap -/

/-- The C function `set_frame`: `frames[idx] |= (0x1 << off)`. -/
def set_frame (frames : List Nat) (frame_addr : Nat) : List Nat :=
  let frame := u32 frame_addr / 0x1000
  let idx := INDEX_FROM_BIT frame
  let off := OFFSET_FROM_BIT frame
  frames.set idx (frames.getD idx 0 ||| (0x1 <<< off))

/-- The C function `clear_frame`: `frames[idx] &= ~(0x1 << off)`, the
complement being taken on 32 bits. -/
def clear_frame (frames : List Nat) (frame_addr : Nat) : List Nat :=
  let frame := u32 frame_addr / 0x1000
  let idx := INDEX_FROM_BIT frame
  let off := OFFSET_FROM_BIT frame
  frames.set idx (frames.getD idx 0 &&& ((0x1 <<< off) ^^^ 0xFFFFFFFF))

/-- The C function `test_frame`: `frames[idx] & (0x1 << off)`. -/
def test_frame (frames : List Nat) (frame_addr : Nat) : Nat :=
  let frame := u32 frame_addr / 0x1000
  let idx := INDEX_FROM_BIT frame
  let off := OFFSET_FROM_BIT frame
  frames.getD idx 0 &&& (0x1 <<< off)

/-- Inner loop of `first_frame` on word `i` with value `w`: bit positions
`j, j+1, ...` are tried, `n` of them; the first clear one ends the function
with `i * 4 * 8 + j`. -/
def first_frame_bits (w i : Nat) : Nat → Nat → Option Nat
  | 0, _ => none
  | n + 1, j =>
    let toTest := 0x1 <<< j
    if w &&& toTest = 0 then some (u32 (i * 4 * 8 + j))
    else first_frame_bits w i n (j + 1)

/-- Outer loop of `first_frame`: words `i, i+1, ...` are visited, `n` of
them.  A word equal to `0xFFFFFFFF` is skipped; in any other word the inner
loop runs over `j = 0 .. 31`.  `none` means the loop ran to its end. -/
def first_frame_words (frames : List Nat) : Nat → Nat → Option Nat
  | 0, _ => none
  | n + 1, i =>
    if frames.getD i 0 ≠ 0xFFFFFFFF then
      match first_frame_bits (frames.getD i 0) i 32 0 with
      | some r => some r
      | none => first_frame_words frames n (i + 1)
    else first_frame_words frames n (i + 1)

/-- The scan of `first_frame`, for `i = 0` up to `INDEX_FROM_BIT(nframes)`:
`some idx` when a `return i * 4 * 8 + j` is reached, `none` when the loop
ends without one. -/
def first_frame_scan (frames : List Nat) (nframes : Nat) : Option Nat :=
  first_frame_words frames (INDEX_FROM_BIT nframes) 0

/-- The C function `first_frame`: the result of the scan, and `0` from the
final `return 0;` when the scan found nothing. -/
def first_frame (frames : List Nat) (nframes : Nat) : Nat :=
  match first_frame_scan frames nframes with
  | some idx => idx
  | none => 0

/-! ## Page entries -/

/-- Modelled from the spec: the type `Page` of `kernel/paging.h`, which is
not part of the sources at hand.  The spec describes a page entry with the
fields `present`, `writable` (`rw`), `user_accessible` (`user`) and `frame`,
packed into the hardware-defined word: the three flags are one bit wide and
the frame number takes the 20 bits left by the 12-bit page offset.  The value
`0` of `frame` stands for "no frame". -/
structure Page where
  present : Nat
  rw : Nat
  user : Nat
  frame : Nat
  deriving DecidableEq

/-- Modelled from the spec: a store into the field `frame` of a page entry,
declared with `Page` in `kernel/paging.h`.  The field is the frame number
of the hardware-defined entry word, 20 bits wide, so a store keeps the low 20
bits of the value. -/
def frameField (n : Nat) : Nat := n % 2 ^ 20

/-- The C function `alloc_frame(page, is_kernel, is_writeable)`.  The result
is the bitmap and the entry after the call.  The test
`idx == (uint32_t)-1` guards an empty block in the source, so both of its
branches continue in the same way. -/
def alloc_frame (frames : List Nat) (nframes : Nat) (page : Page)
    (is_kernel is_writeable : Int) : List Nat × Page :=
  if page.frame ≠ 0 then (frames, page)
  else
    let idx := first_frame frames nframes
    let frames1 := set_frame frames (idx * 0x1000)
    (frames1,
      { present := 1
        rw := if is_writeable ≠ 0 then 1 else 0
        user := if is_kernel ≠ 0 then 0 else 1
        frame := frameField idx })

/-- The C function `free_frame(page)`: the frame number itself is handed to
`clear_frame`. -/
def free_frame (frames : List Nat) (page : Page) : List Nat × Page :=
  let frame := page.frame
  if frame = 0 then (frames, page)
  else (clear_frame frames frame, { page with frame := 0x0 })

/-- The bit of frame number `k` as the code reads it,
`frames[INDEX_FROM_BIT(k)] & (0x1 << OFFSET_FROM_BIT(k))`: the value that
`test_frame` returns for an address in frame `k` and that `first_frame`
tests as `frames[i] & toTest` with `k = i * 32 + j`. -/
def frame_bit (frames : List Nat) (k : Nat) : Nat :=
  frames.getD (INDEX_FROM_BIT k) 0 &&& (0x1 <<< OFFSET_FROM_BIT k)

/-! ## Sequences of allocator calls -/

/-- One call of the frame allocator on the page entry numbered `page` of a
pool of entries. -/
inductive FrameOp where
  | alloc (page : Nat) (is_kernel is_writeable : Int)
  | free (page : Nat)
  deriving DecidableEq

/-- The bitmap together with a pool of page entries. -/
structure AllocState where
  frames : List Nat
  pages : List Page
  deriving DecidableEq

/-- Effect of one call: `alloc_frame` or `free_frame` runs on the chosen
entry and the entry is stored back. -/
def AllocState.step (nframes : Nat) (s : AllocState) : FrameOp → AllocState
  | .alloc p is_kernel is_writeable =>
    match s.pages[p]? with
    | some pg =>
      let r := alloc_frame s.frames nframes pg is_kernel is_writeable
      { frames := r.1, pages := s.pages.set p r.2 }
    | none => s
  | .free p =>
    match s.pages[p]? with
    | some pg =>
      let r := free_frame s.frames pg
      { frames := r.1, pages := s.pages.set p r.2 }
    | none => s

/-- Effect of a sequence of calls, first call first. -/
def AllocState.run (nframes : Nat) (s : AllocState) (ops : List FrameOp) : AllocState :=
  ops.foldl (AllocState.step nframes) s

/-! ## Page directory -/

/-- Modelled from the spec: the type `PageTable` of `kernel/paging.h`, which
is not part of the sources at hand: a sequence of exactly 1024 page
entries, the member `pages`. -/
structure PageTable where
  pages : List Page
  deriving DecidableEq

/-- Modelled from the spec: the type `PageDirectory` of `kernel/paging.h`,
which is not part of the sources at hand: 1024 slots, each absent or owning
one page table (the member `tables`, the null pointer being `none`), and for
each slot the word with the physical address of the table and its permission
bits (the member `tables_physical`). -/
structure PageDirectory where
  tables : List (Option PageTable)
  tables_physical : List Nat
  deriving DecidableEq

/-- The place of a page entry, `&dir->tables[table_idx]->pages[page_idx]`. -/
structure PageRef where
  table_idx : Nat
  page_idx : Nat
  deriving DecidableEq

/-- The entry found at a place of the directory, if its table exists. -/
def PageDirectory.entry (dir : PageDirectory) (r : PageRef) : Option Page :=
  match dir.tables.getD r.table_idx none with
  | some t => t.pages[r.page_idx]?
  | none => none

/-- The C function `get_page(address, make, dir)`.  The external allocator
`kmalloc_ap(sizeof(PageTable), &tmp)` is represented by what it hands back:
`fresh`, the contents of the memory at the returned (non-null) pointer, and
`tmp`, the physical address it stores.  The result is the returned pointer
(`none` for the null pointer) and the directory after the call. -/
def get_page (address : Nat) (make : Int) (dir : PageDirectory)
    (fresh : PageTable) (tmp : Nat) : Option PageRef × PageDirectory :=
  let address := u32 address / 0x1000
  let table_idx := address / 1024
  match dir.tables.getD table_idx none with
  | some _ => (some { table_idx := table_idx, page_idx := address % 1024 }, dir)
  | none =>
    if make ≠ 0 then
      (some { table_idx := table_idx, page_idx := address % 1024 },
        { tables := dir.tables.set table_idx (some fresh)
          tables_physical := dir.tables_physical.set table_idx (u32 tmp ||| 0x7) })
    else (none, dir)

/-- A directory with no table in any of its 1024 slots. -/
def PageDirectory.empty : PageDirectory :=
  { tables := List.replicate 1024 none, tables_physical := List.replicate 1024 0 }

/-! ## Start of `init_paging` -/

/-- The local `mem_end_page` of `init_paging`. -/
def mem_end_page : Nat := 0x1000000

/-- The value that `init_paging` stores in `nframes`,
`mem_end_page / 0x1000`. -/
def init_nframes : Nat := mem_end_page / 0x1000

/-- The number of bytes that `init_paging` asks of `kmalloc` for the bitmap
and clears with `memset`: `INDEX_FROM_BIT(nframes)`. -/
def init_bitmap_bytes : Nat := INDEX_FROM_BIT init_nframes

/-- Size in bytes of one word of the bitmap, `sizeof(uint32_t)`. -/
def frame_word_bytes : Nat := 4

/-! ## The mapping loop of `init_paging` -/

/-- Modelled from the spec: what one call `kmalloc_ap(sizeof(PageTable), &tmp)`
of the early bump allocator hands back.  The allocator is not part of the
sources at hand; the spec gives it as
`alloc_aligned(size) -> (address, physical_address)`.  `table` is the contents
of the memory at the returned address, `phys` the physical address stored in
`tmp`, and `placement_address` the value of the global watermark
`placement_address` after the call. -/
structure Kmalloc where
  table : PageTable
  phys : Nat
  placement_address : Nat

/-- The globals that the loop of `init_paging` reads and writes: the bitmap
`frames`, the directory `kernel_directory` and the watermark
`placement_address`. -/
structure PagingState where
  frames : List Nat
  dir : PageDirectory
  placement_address : Nat

/-- A page table whose 1024 entries are all zero. -/
def PageTable.zero : PageTable := { pages := List.replicate 1024 ⟨0, 0, 0, 0⟩ }

/-- A store through a pointer to a page entry: the entry at the place `r` of
the directory is replaced. -/
def PageDirectory.setEntry (dir : PageDirectory) (r : PageRef) (pg : Page) : PageDirectory :=
  match dir.tables.getD r.table_idx none with
  | some t =>
    { dir with tables := dir.tables.set r.table_idx (some { pages := t.pages.set r.page_idx pg }) }
  | none => dir

/-- One pass through the body of the loop of `init_paging`,
`alloc_frame(get_page(i, 1, kernel_directory), 0, 0)`.  The allocator
`kmalloc_ap` is a function of the watermark at the call; it is called, and
the watermark moves, only when `get_page` finds the directory slot empty.
`alloc_frame` runs on the entry that `get_page` returns and its result is
stored back there. -/
def init_paging_step (nframes : Nat) (kmalloc_ap : Nat → Kmalloc) (i : Nat)
    (s : PagingState) : PagingState :=
  let k := kmalloc_ap s.placement_address
  let placement :=
    match s.dir.tables.getD (u32 i / 0x1000 / 1024) none with
    | some _ => s.placement_address
    | none => k.placement_address
  let g := get_page i 1 s.dir k.table k.phys
  match g.1 with
  | some r =>
    match g.2.entry r with
    | some pg =>
      let a := alloc_frame s.frames nframes pg 0 0
      { frames := a.1, dir := g.2.setEntry r a.2, placement_address := placement }
    | none => { frames := s.frames, dir := g.2, placement_address := placement }
  | none => { frames := s.frames, dir := g.2, placement_address := placement }

/-- The loop of `init_paging`,
`while (i < placement_address) { ...; i += 0x1000; }`, with a bound `fuel`
on the number of tests of its condition: `some s` is the state in which the
condition fails, `none` means that the bound was reached first. -/
def init_paging_loop (nframes : Nat) (kmalloc_ap : Nat → Kmalloc) :
    Nat → Nat → PagingState → Option PagingState
  | 0, _, _ => none
  | fuel + 1, i, s =>
    if i < s.placement_address then
      init_paging_loop nframes kmalloc_ap fuel (u32 (i + 0x1000))
        (init_paging_step nframes kmalloc_ap i s)
    else some s

/-- The watermark `placement_address` after `n` calls of the allocator,
`p0` being its value before the first call. -/
def watermark (kmalloc_ap : Nat → Kmalloc) (p0 : Nat) : Nat → Nat
  | 0 => p0
  | n + 1 => (kmalloc_ap (watermark kmalloc_ap p0 n)).placement_address

/-- The entry of page number `m` once the pages `0 .. k-1` have been mapped
by the loop: present, not writable, user, frame `m` for `m < k`, and zero
otherwise. -/
def identity_entry (k m : Nat) : Page :=
  if m < k then ⟨1, 0, 1, m⟩ else ⟨0, 0, 0, 0⟩

/-- The state of the loop of `init_paging` when the pages `0 .. k-1` have
been mapped: exactly the bits of the frames `0 .. k-1` are set, every table of
the directory holds the entries `identity_entry k`, the tables of the mapped
pages exist, and the watermark is the one after `n` calls of the allocator,
where `n` is at most the number of tables that hold a mapped page. -/
def LoopInv (nframes : Nat) (kmalloc_ap : Nat → Kmalloc) (p0 k : Nat)
    (s : PagingState) : Prop :=
  (∀ i c, (s.frames.getD i 0).testBit c = decide (c < 32 ∧ 32 * i + c < k)) ∧
  INDEX_FROM_BIT nframes ≤ s.frames.length ∧
  s.dir.tables.length = 1024 ∧
  (∀ t T, s.dir.tables.getD t none = some T →
    T.pages.length = 1024 ∧
    ∀ j, j < 1024 → T.pages[j]? = some (identity_entry k (t * 1024 + j))) ∧
  (∀ m, m < k → s.dir.tables.getD (m / 1024) none ≠ none) ∧
  ∃ n, n ≤ (k + 1023) / 1024 ∧ s.placement_address = watermark kmalloc_ap p0 n

/-- A page table as memory that was used before may hold it: each of the
1024 entries has `present = rw = user = 1` and `frame = 5`. -/
def stale_table : PageTable := { pages := List.replicate 1024 ⟨1, 1, 1, 5⟩ }

/-- A bump allocator that hands back `stale_table`, reports the watermark as
physical address and moves the watermark by one page. -/
def stale_kmalloc_ap (p : Nat) : Kmalloc :=
  { table := stale_table, phys := p, placement_address := p + 0x1000 }

/-! ## Switching the directory -/

/-- The state that `switch_page_directory` writes: the global
`current_directory` (a pointer) and the control registers CR3 and CR0. -/
structure Machine where
  current_directory : Nat
  cr3 : Nat
  cr0 : Nat
  deriving DecidableEq

/-- The C function `switch_page_directory(dir)`.  `dir` is the pointer.  The
operand of the load of CR3, `&dir->tables_physical`, is `dir` plus the offset
of the member `tables_physical` in `PageDirectory`; the offset is fixed by
`kernel/paging.h`, which is not part of the sources at hand, and is the
parameter `tables_physical_offset`.  CR0 is read, or-ed with `0x80000000` and
written back. -/
def switch_page_directory (m : Machine) (dir tables_physical_offset : Nat) : Machine :=
  let m1 := { m with current_directory := dir }
  let m2 := { m1 with cr3 := u32 (dir + tables_physical_offset) }
  let cr0 := m2.cr0
  let cr0 := cr0 ||| 0x80000000
  { m2 with cr0 := cr0 }

/-- Modelled from the spec: the physical address that the translation
hardware gives the address `v` used by the code.  With the translation-enable
bit `0x80000000` of CR0 clear it is `v` itself.  With the bit set the page of
`v` is looked up in the directory in force, `cur`, by directory index and
table index; a present entry maps the page to its frame, and a page without
a present entry has no physical address. -/
def physical_address (cr0 : Nat) (cur : PageDirectory) (v : Nat) : Option Nat :=
  if cr0 &&& 0x80000000 = 0 then some (u32 v)
  else
    match cur.entry { table_idx := u32 v / 0x1000 / 1024, page_idx := u32 v / 0x1000 % 1024 } with
    | some pg => if pg.present ≠ 0 then some (pg.frame * 0x1000 + u32 v % 0x1000) else none
    | none => none

/-! ## Page fault handler -/

/-- One call of the terminal: `terminal_writestr(s)` or
`terminal_write_hex(n)`. -/
inductive TermOut where
  | str (s : String)
  | hex (n : Nat)
  deriving DecidableEq

/-- The C function `page_fault(regs)` up to its final `PANIC`: the calls it
makes to the terminal, in order.  `err_code` is `regs.err_code` and
`faulting_address` the value read from CR2. -/
def page_fault (err_code faulting_address : Nat) : List TermOut :=
  let present : Nat := if err_code &&& 0x1 ≠ 0 then 0 else 1
  let rw := err_code &&& 0x2
  let us := err_code &&& 0x4
  let reserved := err_code &&& 0x8
  [TermOut.str "Page fault! ( "]
    ++ (if present ≠ 0 then [TermOut.str "present "] else [])
    ++ (if rw ≠ 0 then [TermOut.str "read-only "] else [])
    ++ (if us ≠ 0 then [TermOut.str "user-mode "] else [])
    ++ (if reserved ≠ 0 then [TermOut.str "reserved "] else [])
    ++ [TermOut.str ") at 0x", TermOut.hex faulting_address, TermOut.str "\n"]

/-! ## Lemmas on words and lists -/

theorem and_one_shiftLeft_eq_zero (w j : Nat) :
    w &&& (1 <<< j) = 0 ↔ w.testBit j = false := by
  rw [Nat.one_shiftLeft]
  constructor
  · intro h
    have := congrArg (fun x => x.testBit j) h
    simpa [Nat.testBit_and, Nat.testBit_two_pow] using this
  · intro h
    apply Nat.eq_of_testBit_eq
    intro i
    simp only [Nat.testBit_and, Nat.testBit_two_pow, Nat.zero_testBit]
    by_cases hij : j = i
    · subst hij; simp [h]
    · simp [hij]

theorem testBit_or_one_shiftLeft (w j b : Nat) :
    (w ||| (1 <<< j)).testBit b = (w.testBit b || decide (j = b)) := by
  rw [Nat.one_shiftLeft, Nat.testBit_or, Nat.testBit_two_pow]

theorem testBit_and_not_one_shiftLeft (w j b : Nat) (hj : j < 32) :
    (w &&& ((1 <<< j) ^^^ 0xFFFFFFFF)).testBit b
      = (w.testBit b && (decide (b < 32) && !decide (j = b))) := by
  have h32 : (0xFFFFFFFF : Nat) = 2 ^ 32 - 1 := by norm_num
  rw [Nat.one_shiftLeft, Nat.testBit_and, Nat.testBit_xor, Nat.testBit_two_pow, h32,
    Nat.testBit_two_pow_sub_one]
  by_cases h1 : j = b
  · subst h1; simp [hj]
  · by_cases h2 : b < 32 <;> simp [h1, h2]

theorem getD_set_eq (l : List Nat) (i j v : Nat) :
    (l.set i v).getD j 0 = if i = j ∧ i < l.length then v else l.getD j 0 := by
  simp only [List.getD_eq_getElem?_getD, List.getElem?_set]
  by_cases h : i = j
  · subst h
    by_cases h2 : i < l.length
    · simp [h2]
    · simp [h2, List.getElem?_eq_none (Nat.le_of_not_lt h2)]
  · simp [h]

theorem u32_mul_page (i : Nat) : u32 (i * 0x1000) / 0x1000 = i % 2 ^ 20 := by
  unfold u32; omega

theorem test_frame_eq (frames : List Nat) (addr : Nat) :
    test_frame frames addr = frame_bit frames (u32 addr / 0x1000) := rfl

theorem test_frame_mul (frames : List Nat) (k : Nat) (hk : k < 2 ^ 20) :
    test_frame frames (k * 0x1000) = frame_bit frames k := by
  rw [test_frame_eq, u32_mul_page, Nat.mod_eq_of_lt hk]

theorem frame_bit_eq_zero_iff (frames : List Nat) (k : Nat) :
    frame_bit frames k = 0 ↔ (frames.getD (k / 32) 0).testBit (k % 32) = false := by
  unfold frame_bit INDEX_FROM_BIT OFFSET_FROM_BIT
  exact and_one_shiftLeft_eq_zero _ _

/-! ## The scan of `first_frame` -/

theorem first_frame_bits_none (w i : Nat) :
    ∀ n j, first_frame_bits w i n j = none →
      ∀ c, j ≤ c → c < j + n → w.testBit c = true := by
  intro n
  induction n with
  | zero => intro j _ c h1 h2; omega
  | succ n ih =>
    intro j h c h1 h2
    unfold first_frame_bits at h
    by_cases hw : w &&& (0x1 <<< j) = 0
    · simp [hw] at h
    · simp only [hw, if_false] at h
      by_cases hc : c = j
      · subst hc
        have := (and_one_shiftLeft_eq_zero w c).not.mp hw
        simpa using this
      · exact ih (j + 1) h c (by omega) (by omega)

theorem first_frame_bits_some (w i : Nat) :
    ∀ n j r, first_frame_bits w i n j = some r →
      ∃ b, j ≤ b ∧ b < j + n ∧ r = u32 (i * 4 * 8 + b) ∧ w.testBit b = false ∧
        ∀ c, j ≤ c → c < b → w.testBit c = true := by
  intro n
  induction n with
  | zero => intro j r h; simp [first_frame_bits] at h
  | succ n ih =>
    intro j r h
    unfold first_frame_bits at h
    by_cases hw : w &&& (0x1 <<< j) = 0
    · simp only [hw, if_true, Option.some.injEq] at h
      exact ⟨j, le_refl j, by omega, h.symm, (and_one_shiftLeft_eq_zero w j).mp hw,
        fun c h1 h2 => by omega⟩
    · simp only [hw, if_false] at h
      obtain ⟨b, hb1, hb2, hr, hbit, hlow⟩ := ih (j + 1) r h
      refine ⟨b, by omega, by omega, hr, hbit, ?_⟩
      intro c h1 h2
      by_cases hc : c = j
      · subst hc
        have := (and_one_shiftLeft_eq_zero w c).not.mp hw
        simpa using this
      · exact hlow c (by omega) h2

theorem testBit_full_word (c : Nat) (hc : c < 32) : (0xFFFFFFFF : Nat).testBit c = true := by
  have h32 : (0xFFFFFFFF : Nat) = 2 ^ 32 - 1 := by norm_num
  rw [h32, Nat.testBit_two_pow_sub_one]
  simpa using hc

theorem first_frame_words_none (frames : List Nat) :
    ∀ n i, first_frame_words frames n i = none →
      ∀ a c, i ≤ a → a < i + n → c < 32 → (frames.getD a 0).testBit c = true := by
  intro n
  induction n with
  | zero => intro i _ a c h1 h2; omega
  | succ n ih =>
    intro i h a c h1 h2 hc
    unfold first_frame_words at h
    by_cases hw : frames.getD i 0 ≠ 0xFFFFFFFF
    · rw [if_pos hw] at h
      cases hb : first_frame_bits (frames.getD i 0) i 32 0 with
      | some r => rw [hb] at h; cases h
      | none =>
        rw [hb] at h
        by_cases ha : a = i
        · subst ha
          exact first_frame_bits_none _ _ 32 0 hb c (Nat.zero_le c) (by omega)
        · exact ih (i + 1) h a c (by omega) (by omega) hc
    · rw [if_neg hw] at h
      by_cases ha : a = i
      · subst ha
        rw [not_not.mp hw]
        exact testBit_full_word c hc
      · exact ih (i + 1) h a c (by omega) (by omega) hc

theorem first_frame_words_some (frames : List Nat) :
    ∀ n i r, first_frame_words frames n i = some r →
      ∃ a b, i ≤ a ∧ a < i + n ∧ b < 32 ∧ r = u32 (a * 32 + b) ∧
        (frames.getD a 0).testBit b = false ∧
        (∀ c, c < b → (frames.getD a 0).testBit c = true) ∧
        ∀ a1 c, i ≤ a1 → a1 < a → c < 32 → (frames.getD a1 0).testBit c = true := by
  intro n
  induction n with
  | zero => intro i r h; simp [first_frame_words] at h
  | succ n ih =>
    intro i r h
    unfold first_frame_words at h
    have step : first_frame_words frames n (i + 1) = some r →
        (∀ c, c < 32 → (frames.getD i 0).testBit c = true) →
        ∃ a b, i ≤ a ∧ a < i + (n + 1) ∧ b < 32 ∧ r = u32 (a * 32 + b) ∧
          (frames.getD a 0).testBit b = false ∧
          (∀ c, c < b → (frames.getD a 0).testBit c = true) ∧
          ∀ a1 c, i ≤ a1 → a1 < a → c < 32 → (frames.getD a1 0).testBit c = true := by
      intro h2 hfull
      obtain ⟨a, b, ha1, ha2, hb, hr, hbit, hlow, hprev⟩ := ih (i + 1) r h2
      refine ⟨a, b, by omega, by omega, hb, hr, hbit, hlow, ?_⟩
      intro a1 c h3 h4 hc
      by_cases ha : a1 = i
      · subst ha; exact hfull c hc
      · exact hprev a1 c (by omega) h4 hc
    by_cases hw : frames.getD i 0 ≠ 0xFFFFFFFF
    · rw [if_pos hw] at h
      cases hb : first_frame_bits (frames.getD i 0) i 32 0 with
      | some r1 =>
        rw [hb] at h
        have h3 : some r1 = some r := h
        injection h3 with h3
        subst h3
        obtain ⟨b, _, hb2, hr, hbit, hlow⟩ := first_frame_bits_some _ _ 32 0 r1 hb
        refine ⟨i, b, le_refl i, by omega, by omega, ?_, hbit,
          fun c hc => hlow c (Nat.zero_le c) hc, fun a1 c h3 h4 _ => by omega⟩
        rw [hr]; congr 1; omega
      | none =>
        rw [hb] at h
        exact step h (fun c hc =>
          first_frame_bits_none _ _ 32 0 hb c (Nat.zero_le c) (by omega))
    · rw [if_neg hw] at h
      refine step h (fun c hc => ?_)
      rw [not_not.mp hw]
      exact testBit_full_word c hc

/-! ## Effect of `set_frame` and `clear_frame` on single bits -/

theorem length_set_frame (frames : List Nat) (addr : Nat) :
    (set_frame frames addr).length = frames.length := by
  simp [set_frame]

theorem length_clear_frame (frames : List Nat) (addr : Nat) :
    (clear_frame frames addr).length = frames.length := by
  simp [clear_frame]

theorem testBit_set_frame (frames : List Nat) (addr i c : Nat)
    (h : u32 addr / 0x1000 / 32 < frames.length) :
    ((set_frame frames addr).getD i 0).testBit c
      = ((frames.getD i 0).testBit c ||
          decide (i = u32 addr / 0x1000 / 32 ∧ c = u32 addr / 0x1000 % 32)) := by
  unfold set_frame INDEX_FROM_BIT OFFSET_FROM_BIT
  simp only [getD_set_eq]
  by_cases hi : u32 addr / 0x1000 / (8 * 4) = i
  · subst hi
    rw [if_pos ⟨rfl, h⟩, testBit_or_one_shiftLeft]
    by_cases hc : u32 addr / 0x1000 % (8 * 4) = c
    · simp [hc.symm]
    · have hc2 : ¬ c = u32 addr / 0x1000 % 32 := fun e => hc e.symm
      simp [hc, hc2]
  · have hi2 : ¬ i = u32 addr / 0x1000 / 32 := fun e => hi e.symm
    rw [if_neg (fun e => hi e.1)]
    simp [hi2]

theorem testBit_clear_frame (frames : List Nat) (addr i c : Nat)
    (h : u32 addr / 0x1000 / 32 < frames.length) :
    ((clear_frame frames addr).getD i 0).testBit c
      = ((frames.getD i 0).testBit c &&
          !decide (i = u32 addr / 0x1000 / 32 ∧ (c = u32 addr / 0x1000 % 32 ∨ 32 ≤ c))) := by
  unfold clear_frame INDEX_FROM_BIT OFFSET_FROM_BIT
  simp only [getD_set_eq]
  by_cases hi : u32 addr / 0x1000 / (8 * 4) = i
  · subst hi
    rw [if_pos ⟨rfl, h⟩, testBit_and_not_one_shiftLeft _ _ _ (Nat.mod_lt _ (by norm_num))]
    by_cases hc : u32 addr / 0x1000 % (8 * 4) = c
    · simp [hc.symm]
    · have hc2 : ¬ c = u32 addr / 0x1000 % 32 := fun e => hc e.symm
      by_cases h32 : c < 32
      · simp [hc, hc2, h32]
      · simp [hc, hc2, h32, Nat.le_of_not_lt h32]
  · have hi2 : ¬ i = u32 addr / 0x1000 / 32 := fun e => hi e.symm
    rw [if_neg (fun e => hi e.1)]
    simp [hi2]

theorem frame_bit_ne_zero_iff (frames : List Nat) (k : Nat) :
    frame_bit frames k ≠ 0 ↔ (frames.getD (k / 32) 0).testBit (k % 32) = true := by
  rw [Ne, frame_bit_eq_zero_iff]; simp

/-! ## What the scan of `first_frame` finds -/

theorem first_frame_scan_none (frames : List Nat) (nframes : Nat)
    (h : first_frame_scan frames nframes = none) (k : Nat) (hk : k < 32 * (nframes / 32)) :
    frame_bit frames k ≠ 0 := by
  rw [frame_bit_ne_zero_iff]
  unfold first_frame_scan INDEX_FROM_BIT at h
  exact first_frame_words_none frames _ 0 h (k / 32) (k % 32) (Nat.zero_le _) (by omega)
    (Nat.mod_lt _ (by norm_num))

theorem first_frame_scan_some (frames : List Nat) (nframes r : Nat) (hn : nframes < 2 ^ 32)
    (h : first_frame_scan frames nframes = some r) :
    r < 32 * (nframes / 32) ∧ frame_bit frames r = 0 ∧ ∀ m, m < r → frame_bit frames m ≠ 0 := by
  unfold first_frame_scan INDEX_FROM_BIT at h
  obtain ⟨a, b, _, ha, hb, hr, hbit, hlow, hprev⟩ := first_frame_words_some frames _ 0 r h
  have hr2 : r = a * 32 + b := by rw [hr]; unfold u32; omega
  have hdiv : r / 32 = a := by omega
  have hmod : r % 32 = b := by omega
  refine ⟨by omega, ?_, ?_⟩
  · rw [frame_bit_eq_zero_iff, hdiv, hmod]; exact hbit
  · intro m hm
    rw [frame_bit_ne_zero_iff]
    by_cases hma : m / 32 = a
    · rw [hma]; exact hlow _ (by omega)
    · exact hprev _ _ (Nat.zero_le _) (by omega) (Nat.mod_lt _ (by norm_num))

/-! ## The claims on the frame bitmap -/

/-- C7: for every frame index `i` inside the bitmap, right after
`set_frame(i*0x1000)` the call `test_frame(i*0x1000)` gives a non-zero value,
and after a following `clear_frame(i*0x1000)` it gives zero, whatever the
bitmap held before. -/
theorem set_clear_test_roundtrip (frames : List Nat) (i : Nat)
    (hi : INDEX_FROM_BIT i < frames.length) :
    test_frame (set_frame frames (i * 0x1000)) (i * 0x1000) ≠ 0 ∧
    test_frame (clear_frame (set_frame frames (i * 0x1000)) (i * 0x1000)) (i * 0x1000) = 0 := by
  have hin : u32 (i * 0x1000) / 0x1000 / 32 < frames.length := by
    unfold INDEX_FROM_BIT at hi
    rw [u32_mul_page]; omega
  constructor
  · rw [test_frame_eq, frame_bit_ne_zero_iff, testBit_set_frame _ _ _ _ hin]
    simp
  · rw [test_frame_eq, frame_bit_eq_zero_iff,
      testBit_clear_frame _ _ _ _ (by rw [length_set_frame]; exact hin)]
    simp

/-- Witness of C7 on a two-word bitmap and frame 37. -/
theorem set_clear_test_roundtrip_witness :
    test_frame (set_frame [0x5, 0x0] (37 * 0x1000)) (37 * 0x1000) ≠ 0 ∧
    test_frame (clear_frame (set_frame [0x5, 0x0] (37 * 0x1000)) (37 * 0x1000))
      (37 * 0x1000) = 0 :=
  set_clear_test_roundtrip [0x5, 0x0] 37 (by decide)

/-- C8: whenever some frame index below `32 * (nframes / 32)` has its bit
clear, `first_frame` returns the smallest such index: the bit of the returned
frame is clear, the returned index is at most any index with a clear bit, and
every frame with a smaller index has its bit set. -/
theorem first_frame_lowest_clear (frames : List Nat) (nframes k : Nat)
    (hn : nframes < 2 ^ 32) (hk : k < 32 * (nframes / 32))
    (hclear : frame_bit frames k = 0) :
    frame_bit frames (first_frame frames nframes) = 0 ∧
    first_frame frames nframes ≤ k ∧
    ∀ m, m < first_frame frames nframes → frame_bit frames m ≠ 0 := by
  cases hs : first_frame_scan frames nframes with
  | none => exact absurd hclear (first_frame_scan_none frames nframes hs k hk)
  | some r =>
    obtain ⟨_, h2, h3⟩ := first_frame_scan_some frames nframes r hn hs
    have hff : first_frame frames nframes = r := by unfold first_frame; rw [hs]
    rw [hff]
    refine ⟨h2, ?_, h3⟩
    by_contra hlt
    exact h3 k (by omega) hclear

/-- Witness of C8: the first word is full, the second has its bits 0 to 2
set, and frame 40 is free. -/
theorem first_frame_lowest_clear_witness :
    frame_bit [0xFFFFFFFF, 0x7] (first_frame [0xFFFFFFFF, 0x7] 64) = 0 ∧
    first_frame [0xFFFFFFFF, 0x7] 64 ≤ 40 ∧
    ∀ m, m < first_frame [0xFFFFFFFF, 0x7] 64 → frame_bit [0xFFFFFFFF, 0x7] m ≠ 0 :=
  first_frame_lowest_clear [0xFFFFFFFF, 0x7] 64 40 (by decide) (by decide) (by decide)

/-! ## The claims on `alloc_frame` and `free_frame` -/

theorem alloc_frame_unset (frames : List Nat) (nframes : Nat) (page : Page)
    (is_kernel is_writeable : Int) (hpage : page.frame = 0) :
    alloc_frame frames nframes page is_kernel is_writeable
      = (set_frame frames (first_frame frames nframes * 0x1000),
          { present := 1
            rw := if is_writeable ≠ 0 then 1 else 0
            user := if is_kernel ≠ 0 then 0 else 1
            frame := frameField (first_frame frames nframes) }) := by
  unfold alloc_frame
  rw [if_neg (by simp [hpage])]

/-- C6: for a page with no frame assigned and a bitmap in which the scan of
`first_frame` finds a clear bit `idx`, after
`alloc_frame(page, is_kernel, is_writeable)` the page has `present = 1`,
`rw = 1` exactly when `is_writeable` is non-zero, `user = 1` exactly when
`is_kernel` is zero and `frame = idx`; the bit of frame `idx` was clear and is
now set, and no other bit of the bitmap has changed.  The bitmap covers at
most the `2^20` frames that have a 32-bit address, and the scanned words lie
inside it. -/
theorem alloc_frame_post (frames : List Nat) (nframes : Nat) (page : Page)
    (is_kernel is_writeable : Int) (idx : Nat)
    (hpage : page.frame = 0)
    (hscan : first_frame_scan frames nframes = some idx)
    (hn : nframes ≤ 2 ^ 20)
    (hlen : INDEX_FROM_BIT nframes ≤ frames.length) :
    (alloc_frame frames nframes page is_kernel is_writeable).2.present = 1 ∧
    ((alloc_frame frames nframes page is_kernel is_writeable).2.rw = 1 ↔ is_writeable ≠ 0) ∧
    ((alloc_frame frames nframes page is_kernel is_writeable).2.rw = 0 ↔ is_writeable = 0) ∧
    ((alloc_frame frames nframes page is_kernel is_writeable).2.user = 1 ↔ is_kernel = 0) ∧
    ((alloc_frame frames nframes page is_kernel is_writeable).2.user = 0 ↔ is_kernel ≠ 0) ∧
    (alloc_frame frames nframes page is_kernel is_writeable).2.frame = idx ∧
    first_frame frames nframes = idx ∧
    test_frame frames (idx * 0x1000) = 0 ∧
    test_frame (alloc_frame frames nframes page is_kernel is_writeable).1 (idx * 0x1000) ≠ 0 ∧
    (alloc_frame frames nframes page is_kernel is_writeable).1.length = frames.length ∧
    ∀ i c, ¬ (i = idx / 32 ∧ c = idx % 32) →
      (((alloc_frame frames nframes page is_kernel is_writeable).1).getD i 0).testBit c
        = (frames.getD i 0).testBit c := by
  have hn32 : nframes < 2 ^ 32 := by
    have : (2 : Nat) ^ 20 < 2 ^ 32 := by norm_num
    omega
  obtain ⟨hlt, hbit0, _⟩ := first_frame_scan_some frames nframes idx hn32 hscan
  have hidx : idx < 2 ^ 20 := by omega
  have hff : first_frame frames nframes = idx := by unfold first_frame; rw [hscan]
  have hin : u32 (idx * 0x1000) / 0x1000 / 32 < frames.length := by
    unfold INDEX_FROM_BIT at hlen
    rw [u32_mul_page, Nat.mod_eq_of_lt hidx]; omega
  rw [alloc_frame_unset _ _ _ _ _ hpage, hff]
  refine ⟨rfl, ?_, ?_, ?_, ?_, ?_, rfl, ?_, ?_, ?_, ?_⟩
  · by_cases hw : is_writeable = 0 <;> simp [hw]
  · by_cases hw : is_writeable = 0 <;> simp [hw]
  · by_cases hk : is_kernel = 0 <;> simp [hk]
  · by_cases hk : is_kernel = 0 <;> simp [hk]
  · exact Nat.mod_eq_of_lt hidx
  · rw [test_frame_mul _ _ hidx]; exact hbit0
  · rw [test_frame_eq, frame_bit_ne_zero_iff, testBit_set_frame _ _ _ _ hin]
    simp
  · exact length_set_frame _ _
  · intro i c hic
    show ((set_frame frames (idx * 0x1000)).getD i 0).testBit c = _
    rw [testBit_set_frame _ _ _ _ hin, u32_mul_page, Nat.mod_eq_of_lt hidx]
    simp [hic]

/-- Witness of C6: frames 0 to 34 are taken in a bitmap of 64 frames, the
kernel asks for a writable page. -/
theorem alloc_frame_post_witness :
    (alloc_frame [0xFFFFFFFF, 0x7] 64 ⟨0, 0, 0, 0⟩ 1 1).2 = ⟨1, 1, 0, 35⟩ ∧
    (alloc_frame [0xFFFFFFFF, 0x7] 64 ⟨0, 0, 0, 0⟩ 1 1).1 = [0xFFFFFFFF, 0xF] ∧
    (alloc_frame [0xFFFFFFFF, 0x7] 64 ⟨0, 0, 0, 0⟩ 1 1).2.frame = 35 :=
  ⟨by decide, by decide,
    (alloc_frame_post [0xFFFFFFFF, 0x7] 64 ⟨0, 0, 0, 0⟩ 1 1 35 rfl (by decide) (by decide)
      (by decide)).2.2.2.2.2.1⟩

/-- C1: evaluation of `free_frame` on a page that holds frame 1, in the
bitmap of 4096 frames with frames 0 and 1 taken.  The frame number 1 reaches
`clear_frame` where an address is expected, so the bit of frame
`1 / 0x1000 = 0` is cleared; the bit of frame 1 stays set and
`test_frame(1 * 0x1000)` is still non-zero.  The field `frame` is reset
to 0. -/
theorem free_frame_clears_frame_zero_bit :
    free_frame (0x3 :: List.replicate 127 0) ⟨1, 0, 1, 1⟩
      = (0x2 :: List.replicate 127 0, ⟨1, 0, 1, 0⟩) ∧
    test_frame (free_frame (0x3 :: List.replicate 127 0) ⟨1, 0, 1, 1⟩).1 (1 * 0x1000) = 0x2 ∧
    test_frame (0x3 :: List.replicate 127 0) (0 * 0x1000) = 0x1 ∧
    test_frame (free_frame (0x3 :: List.replicate 127 0) ⟨1, 0, 1, 1⟩).1 (0 * 0x1000) = 0 := by
  decide

/-- C2, as stated, fails on the all-clear bitmap of 4096 frames: the first
`alloc_frame` assigns frame 0, which reads as "no frame", so the second call
sets the bit of frame 1 as well and changes the field `frame` from 0 to 1. -/
theorem alloc_frame_twice_from_clear :
    alloc_frame (List.replicate 128 0) 4096 ⟨0, 0, 0, 0⟩ 0 0
      = (0x1 :: List.replicate 127 0, ⟨1, 0, 1, 0⟩) ∧
    alloc_frame (alloc_frame (List.replicate 128 0) 4096 ⟨0, 0, 0, 0⟩ 0 0).1 4096
        (alloc_frame (List.replicate 128 0) 4096 ⟨0, 0, 0, 0⟩ 0 0).2 0 0
      = (0x3 :: List.replicate 127 0, ⟨1, 0, 1, 1⟩) := by
  decide

/-- C2, amended: two calls of `alloc_frame` on the same page with no
`free_frame` in between are idempotent whenever the field `frame` of the page
is non-zero after the first call: the second call then changes neither the
bitmap nor the page. -/
theorem alloc_frame_idempotent (frames : List Nat) (nframes : Nat) (page : Page)
    (is_kernel is_writeable is_kernel2 is_writeable2 : Int)
    (h : (alloc_frame frames nframes page is_kernel is_writeable).2.frame ≠ 0) :
    alloc_frame (alloc_frame frames nframes page is_kernel is_writeable).1 nframes
        (alloc_frame frames nframes page is_kernel is_writeable).2 is_kernel2 is_writeable2
      = alloc_frame frames nframes page is_kernel is_writeable := by
  generalize alloc_frame frames nframes page is_kernel is_writeable = r at h ⊢
  unfold alloc_frame
  rw [if_pos h]

/-- Witness of the amended C2: frame 0 is taken, the first call assigns
frame 1 and the second call changes nothing. -/
theorem alloc_frame_idempotent_witness :
    (alloc_frame (0x1 :: List.replicate 127 0) 4096 ⟨0, 0, 0, 0⟩ 0 1).2.frame = 1 ∧
    alloc_frame (alloc_frame (0x1 :: List.replicate 127 0) 4096 ⟨0, 0, 0, 0⟩ 0 1).1 4096
        (alloc_frame (0x1 :: List.replicate 127 0) 4096 ⟨0, 0, 0, 0⟩ 0 1).2 1 0
      = alloc_frame (0x1 :: List.replicate 127 0) 4096 ⟨0, 0, 0, 0⟩ 0 1 :=
  ⟨by decide,
    alloc_frame_idempotent (0x1 :: List.replicate 127 0) 4096 ⟨0, 0, 0, 0⟩ 0 1 1 0 (by decide)⟩

/-- C3: evaluation of `alloc_frame` on the full bitmap of 4096 frames and a
page with no frame.  The scan finds nothing, `first_frame` returns 0, which is
not the value `(uint32_t)-1` that `alloc_frame` compares with, and the call
goes on: the page comes back with `present`, `rw` and `user` changed from 0
to 1 and mapped to frame 0, which is already taken. -/
theorem alloc_frame_full_bitmap :
    first_frame_scan (List.replicate 128 0xFFFFFFFF) 4096 = none ∧
    alloc_frame (List.replicate 128 0xFFFFFFFF) 4096 ⟨0, 0, 0, 0⟩ 0 1
      = (List.replicate 128 0xFFFFFFFF, ⟨1, 1, 1, 0⟩) := by
  decide

/-- C4: evaluation of `first_frame` on the full bitmap of 4096 frames: the
result is 0, and the bit of frame 0 is set at that moment. -/
theorem first_frame_full_bitmap :
    first_frame (List.replicate 128 0xFFFFFFFF) 4096 = 0 ∧
    test_frame (List.replicate 128 0xFFFFFFFF)
      (first_frame (List.replicate 128 0xFFFFFFFF) 4096 * 0x1000) = 0x1 := by
  decide

/-- C5: evaluation of four allocator calls from the all-clear bitmap of 4096
frames and three unmapped pages: page 0 and page 1 are allocated (frames 0
and 1), page 1 is freed, page 2 is allocated.  `free_frame` clears the bit of
frame 0 instead of the bit of frame 1, so page 2 is given frame 0 while
page 0, which was never freed, still holds it. -/
theorem frame_zero_allocated_twice :
    AllocState.run 4096 ⟨List.replicate 128 0, List.replicate 3 ⟨0, 0, 0, 0⟩⟩
        [.alloc 0 0 0, .alloc 1 0 0] =
      ⟨0x3 :: List.replicate 127 0, [⟨1, 0, 1, 0⟩, ⟨1, 0, 1, 1⟩, ⟨0, 0, 0, 0⟩]⟩ ∧
    AllocState.run 4096 ⟨List.replicate 128 0, List.replicate 3 ⟨0, 0, 0, 0⟩⟩
        [.alloc 0 0 0, .alloc 1 0 0, .free 1] =
      ⟨0x2 :: List.replicate 127 0, [⟨1, 0, 1, 0⟩, ⟨1, 0, 1, 0⟩, ⟨0, 0, 0, 0⟩]⟩ ∧
    AllocState.run 4096 ⟨List.replicate 128 0, List.replicate 3 ⟨0, 0, 0, 0⟩⟩
        [.alloc 0 0 0, .alloc 1 0 0, .free 1, .alloc 2 0 0] =
      ⟨0x3 :: List.replicate 127 0, [⟨1, 0, 1, 0⟩, ⟨1, 0, 1, 0⟩, ⟨1, 0, 1, 0⟩]⟩ := by
  decide

/-! ## The claims on `get_page` -/

theorem table_idx_lt (address : Nat) : u32 address / 0x1000 / 1024 < 1024 := by
  unfold u32; omega

theorem getD_set_table (l : List (Option PageTable)) (i : Nat) (t : Option PageTable)
    (h : i < l.length) : (l.set i t).getD i none = t := by
  simp [List.getD_eq_getElem?_getD, List.getElem?_set, h]

theorem get_page_present (address : Nat) (make : Int) (dir : PageDirectory)
    (fresh : PageTable) (tmp : Nat) (t : PageTable)
    (h : dir.tables.getD (u32 address / 0x1000 / 1024) none = some t) :
    get_page address make dir fresh tmp
      = (some { table_idx := u32 address / 0x1000 / 1024
                page_idx := u32 address / 0x1000 % 1024 }, dir) := by
  unfold get_page
  dsimp only
  rw [h]

theorem get_page_absent_make (address : Nat) (make : Int) (dir : PageDirectory)
    (fresh : PageTable) (tmp : Nat) (hmake : make ≠ 0)
    (h : dir.tables.getD (u32 address / 0x1000 / 1024) none = none) :
    get_page address make dir fresh tmp
      = (some { table_idx := u32 address / 0x1000 / 1024
                page_idx := u32 address / 0x1000 % 1024 },
          { tables := dir.tables.set (u32 address / 0x1000 / 1024) (some fresh)
            tables_physical :=
              dir.tables_physical.set (u32 address / 0x1000 / 1024) (u32 tmp ||| 0x7) }) := by
  unfold get_page
  dsimp only
  rw [h, if_pos hmake]

theorem get_page_absent_no_make (address : Nat) (dir : PageDirectory)
    (fresh : PageTable) (tmp : Nat)
    (h : dir.tables.getD (u32 address / 0x1000 / 1024) none = none) :
    get_page address 0 dir fresh tmp = (none, dir) := by
  unfold get_page
  dsimp only
  rw [h, if_neg (by simp)]

/-- C9: if `get_page(a, 1, dir)` is called and then `get_page(b, 0, dir)`,
where `b` has the directory index and the table index of `a`, the first call
returns an entry, the second call returns the same entry (same table, same
slot, same contents) and leaves the directory as the first call left it, so
it creates no table. -/
theorem get_page_same_entry (dir : PageDirectory) (a b : Nat) (fresh fresh2 : PageTable)
    (tmp tmp2 : Nat) (hlen : dir.tables.length = 1024)
    (hdir : u32 a / 0x1000 / 1024 = u32 b / 0x1000 / 1024)
    (htab : u32 a / 0x1000 % 1024 = u32 b / 0x1000 % 1024) :
    (get_page a 1 dir fresh tmp).1
      = some { table_idx := u32 a / 0x1000 / 1024, page_idx := u32 a / 0x1000 % 1024 } ∧
    (get_page b 0 (get_page a 1 dir fresh tmp).2 fresh2 tmp2).1
      = (get_page a 1 dir fresh tmp).1 ∧
    (get_page b 0 (get_page a 1 dir fresh tmp).2 fresh2 tmp2).2
      = (get_page a 1 dir fresh tmp).2 ∧
    ∀ r1 r2, (get_page a 1 dir fresh tmp).1 = some r1 →
      (get_page b 0 (get_page a 1 dir fresh tmp).2 fresh2 tmp2).1 = some r2 →
      r2 = r1 ∧
      (get_page b 0 (get_page a 1 dir fresh tmp).2 fresh2 tmp2).2.entry r2
        = (get_page a 1 dir fresh tmp).2.entry r1 := by
  have hlt : u32 a / 0x1000 / 1024 < dir.tables.length := by
    rw [hlen]; exact table_idx_lt a
  have first : (get_page a 1 dir fresh tmp).1
      = some { table_idx := u32 a / 0x1000 / 1024, page_idx := u32 a / 0x1000 % 1024 } ∧
      ∃ t, (get_page a 1 dir fresh tmp).2.tables.getD (u32 a / 0x1000 / 1024) none = some t := by
    cases hslot : dir.tables.getD (u32 a / 0x1000 / 1024) none with
    | some t =>
      rw [get_page_present a 1 dir fresh tmp t hslot]
      exact ⟨rfl, t, hslot⟩
    | none =>
      rw [get_page_absent_make a 1 dir fresh tmp (by norm_num) hslot]
      exact ⟨rfl, fresh, getD_set_table _ _ _ hlt⟩
  obtain ⟨h1, t, ht⟩ := first
  have second : get_page b 0 (get_page a 1 dir fresh tmp).2 fresh2 tmp2
      = ((get_page a 1 dir fresh tmp).1, (get_page a 1 dir fresh tmp).2) := by
    rw [h1]
    rw [hdir] at ht
    rw [get_page_present b 0 _ fresh2 tmp2 t ht, hdir, htab]
  refine ⟨h1, by rw [second], by rw [second], ?_⟩
  intro r1 r2 e1 e2
  rw [second] at e2
  rw [e1] at e2
  injection e2 with e2
  subst e2
  exact ⟨rfl, by rw [second]⟩

/-- Witness of C9: the address `0x00400000` looked up twice in a directory
without tables, first with `make = 1`, then with `make = 0`. -/
theorem get_page_same_entry_witness :
    (get_page 0x00400000 1 PageDirectory.empty ⟨[]⟩ 0x5000).1 = some ⟨1, 0⟩ ∧
    (get_page 0x00400000 0 (get_page 0x00400000 1 PageDirectory.empty ⟨[]⟩ 0x5000).2
        ⟨[]⟩ 0x6000).1
      = (get_page 0x00400000 1 PageDirectory.empty ⟨[]⟩ 0x5000).1 ∧
    (get_page 0x00400000 0 (get_page 0x00400000 1 PageDirectory.empty ⟨[]⟩ 0x5000).2
        ⟨[]⟩ 0x6000).2
      = (get_page 0x00400000 1 PageDirectory.empty ⟨[]⟩ 0x5000).2 :=
  ⟨(get_page_same_entry PageDirectory.empty 0x00400000 0x00400000 ⟨[]⟩ ⟨[]⟩ 0x5000 0x6000
      (List.length_replicate _ _) rfl rfl).1,
    (get_page_same_entry PageDirectory.empty 0x00400000 0x00400000 ⟨[]⟩ ⟨[]⟩ 0x5000 0x6000
      (List.length_replicate _ _) rfl rfl).2.1,
    (get_page_same_entry PageDirectory.empty 0x00400000 0x00400000 ⟨[]⟩ ⟨[]⟩ 0x5000 0x6000
      (List.length_replicate _ _) rfl rfl).2.2.1⟩

/-- C10: for every address and directory, `get_page(address, 0, dir)` returns
the null result exactly when the directory slot `address/0x1000/1024` holds
no table, and in every case it leaves the directory, `tables` and
`tables_physical`, unchanged. -/
theorem get_page_no_make (address : Nat) (dir : PageDirectory) (fresh : PageTable)
    (tmp : Nat) :
    ((get_page address 0 dir fresh tmp).1 = none ↔
      dir.tables.getD (u32 address / 0x1000 / 1024) none = none) ∧
    (get_page address 0 dir fresh tmp).2 = dir := by
  cases hslot : dir.tables.getD (u32 address / 0x1000 / 1024) none with
  | some t => rw [get_page_present address 0 dir fresh tmp t hslot]; simp
  | none => rw [get_page_absent_no_make address dir fresh tmp hslot]; simp

theorem getD_replicate_none (n i : Nat) :
    (List.replicate n (none : Option PageTable)).getD i none = none := by
  rw [List.getD_eq_getElem?_getD, List.getElem?_replicate]
  by_cases h : i < n <;> simp [h]

theorem getElem?_replicate_lt {α : Type} (n i : Nat) (x : α) (h : i < n) :
    (List.replicate n x)[i]? = some x := by
  rw [List.getElem?_replicate, if_pos h]

theorem empty_slot (i : Nat) : PageDirectory.empty.tables.getD i none = none :=
  getD_replicate_none 1024 i

theorem get_page_new_entry (address : Nat) (make : Int) (dir : PageDirectory)
    (fresh : PageTable) (tmp : Nat) (hmake : make ≠ 0)
    (hlen : dir.tables.length = 1024)
    (h : dir.tables.getD (u32 address / 0x1000 / 1024) none = none) :
    (get_page address make dir fresh tmp).2.entry
        { table_idx := u32 address / 0x1000 / 1024, page_idx := u32 address / 0x1000 % 1024 }
      = fresh.pages[u32 address / 0x1000 % 1024]? := by
  rw [get_page_absent_make address make dir fresh tmp hmake h]
  unfold PageDirectory.entry
  dsimp only
  rw [getD_set_table _ _ _ (by rw [hlen]; exact table_idx_lt address)]

/-- C11: evaluation of `get_page(0x00400000, 1, dir)` on a directory without
tables when the memory handed back by `kmalloc_ap` holds entries with
`present = rw = user = 1` and `frame = 5`.  `get_page` installs that memory as
the new table without clearing it, so the returned entry is not zero. -/
theorem get_page_new_table_not_zeroed :
    (get_page 0x00400000 1 PageDirectory.empty ⟨List.replicate 1024 ⟨1, 1, 1, 5⟩⟩ 0x5000).1
      = some ⟨1, 0⟩ ∧
    (get_page 0x00400000 1 PageDirectory.empty ⟨List.replicate 1024 ⟨1, 1, 1, 5⟩⟩ 0x5000).2.entry
        ⟨1, 0⟩ = some ⟨1, 1, 1, 5⟩ ∧
    (get_page 0x00400000 1 PageDirectory.empty ⟨List.replicate 1024 ⟨1, 1, 1, 5⟩⟩ 0x5000).2.entry
        ⟨1, 1023⟩ = some ⟨1, 1, 1, 5⟩ := by
  have h := get_page_absent_make 0x00400000 1 PageDirectory.empty
    ⟨List.replicate 1024 ⟨1, 1, 1, 5⟩⟩ 0x5000 (by norm_num) (empty_slot _)
  have hidx : u32 0x00400000 / 0x1000 / 1024 = 1 := by decide
  have hlen : (1 : Nat) < PageDirectory.empty.tables.length := by
    unfold PageDirectory.empty
    rw [List.length_replicate]
    norm_num
  rw [h, hidx]
  refine ⟨rfl, ?_, ?_⟩
  · unfold PageDirectory.entry
    dsimp only
    rw [getD_set_table _ _ _ hlen]
    exact getElem?_replicate_lt 1024 0 _ (by norm_num)
  · unfold PageDirectory.entry
    dsimp only
    rw [getD_set_table _ _ _ hlen]
    exact getElem?_replicate_lt 1024 1023 _ (by norm_num)

/-! ## The claims on `page_fault` -/

theorem and_mask_eq_zero (w k : Nat) : w &&& 2 ^ k = 0 ↔ w.testBit k = false := by
  rw [← Nat.one_shiftLeft]; exact and_one_shiftLeft_eq_zero w k

/-- C12: for every error code and every faulting address, `page_fault`
reports each of its four causes by its own bit of the error code alone: the
cause "present" exactly when bit 0 is clear, the write cause (printed
"read-only") exactly when bit 1 is set, "user-mode" exactly when bit 2 is set
and "reserved" exactly when bit 3 is set; the strings written do not depend
on the faulting address; and for an error code with bit 0 clear, bit 1 set
and bits 2 and 3 clear the causes written are exactly "present" and
"read-only". -/
theorem page_fault_decode (err_code faulting_address : Nat) :
    (TermOut.str "present " ∈ page_fault err_code faulting_address
      ↔ err_code.testBit 0 = false) ∧
    (TermOut.str "read-only " ∈ page_fault err_code faulting_address
      ↔ err_code.testBit 1 = true) ∧
    (TermOut.str "user-mode " ∈ page_fault err_code faulting_address
      ↔ err_code.testBit 2 = true) ∧
    (TermOut.str "reserved " ∈ page_fault err_code faulting_address
      ↔ err_code.testBit 3 = true) ∧
    (∀ other_address s, TermOut.str s ∈ page_fault err_code faulting_address
      ↔ TermOut.str s ∈ page_fault err_code other_address) ∧
    (err_code.testBit 0 = false → err_code.testBit 1 = true →
      err_code.testBit 2 = false → err_code.testBit 3 = false →
      page_fault err_code faulting_address
        = [TermOut.str "Page fault! ( ", TermOut.str "present ", TermOut.str "read-only ",
            TermOut.str ") at 0x", TermOut.hex faulting_address, TermOut.str "\n"]) := by
  have p0 : (err_code &&& 0x1 = 0) = (err_code.testBit 0 = false) :=
    propext (and_mask_eq_zero err_code 0)
  have p1 : (err_code &&& 0x2 = 0) = (err_code.testBit 1 = false) :=
    propext (and_mask_eq_zero err_code 1)
  have p2 : (err_code &&& 0x4 = 0) = (err_code.testBit 2 = false) :=
    propext (and_mask_eq_zero err_code 2)
  have p3 : (err_code &&& 0x8 = 0) = (err_code.testBit 3 = false) :=
    propext (and_mask_eq_zero err_code 3)
  unfold page_fault
  simp only [ne_eq, p0, p1, p2, p3]
  cases err_code.testBit 0 <;> cases err_code.testBit 1 <;> cases err_code.testBit 2 <;>
    cases err_code.testBit 3 <;> simp

/-! ## The claims on `init_paging` and `switch_page_directory` -/

/-- C13: evaluation of the sizes in `init_paging`.  With
`nframes = 0x1000000 / 0x1000 = 4096` the bitmap is allocated and cleared
with `INDEX_FROM_BIT(nframes) = 128` bytes, that is 1024 bits, fewer than
`nframes`; `first_frame` scans `INDEX_FROM_BIT(nframes) = 128` words, that is
512 bytes, so the words from index 32 on lie outside the cleared bitmap. -/
theorem init_bitmap_too_small :
    init_nframes = 4096 ∧
    init_bitmap_bytes = 128 ∧
    init_bitmap_bytes * 8 = 1024 ∧
    init_bitmap_bytes * 8 < init_nframes ∧
    INDEX_FROM_BIT init_nframes * frame_word_bytes = 512 ∧
    init_bitmap_bytes < INDEX_FROM_BIT init_nframes * frame_word_bytes ∧
    32 < INDEX_FROM_BIT init_nframes ∧ init_bitmap_bytes ≤ 32 * frame_word_bytes := by
  decide

/-- C17, amended: `switch_page_directory(dir)` records `dir` as
`current_directory`, loads CR3 with the pointer `&dir->tables_physical`, the
address of the array `tables_physical` of `dir` as the code addresses it, and
sets bit `0x80000000` of CR0 while every other bit of CR0 keeps its value.
The pointer is the physical address of the array when the function is called
with translation off, or with the page of the array present and mapped to the
frame of the same number. -/
theorem switch_page_directory_effect (m : Machine) (dir tables_physical_offset : Nat)
    (cur : PageDirectory) :
    (switch_page_directory m dir tables_physical_offset).current_directory = dir ∧
    (switch_page_directory m dir tables_physical_offset).cr3
      = u32 (dir + tables_physical_offset) ∧
    (m.cr0 &&& 0x80000000 = 0 →
      physical_address m.cr0 cur (dir + tables_physical_offset)
        = some (switch_page_directory m dir tables_physical_offset).cr3) ∧
    (∀ pg, cur.entry { table_idx := u32 (dir + tables_physical_offset) / 0x1000 / 1024
                       page_idx := u32 (dir + tables_physical_offset) / 0x1000 % 1024 }
        = some pg →
      pg.present ≠ 0 → pg.frame = u32 (dir + tables_physical_offset) / 0x1000 →
      physical_address m.cr0 cur (dir + tables_physical_offset)
        = some (switch_page_directory m dir tables_physical_offset).cr3) ∧
    (switch_page_directory m dir tables_physical_offset).cr0.testBit 31 = true ∧
    (switch_page_directory m dir tables_physical_offset).cr0 &&& 0x80000000 = 0x80000000 ∧
    ∀ k, k ≠ 31 →
      (switch_page_directory m dir tables_physical_offset).cr0.testBit k = m.cr0.testBit k := by
  have h31 : (0x80000000 : Nat) = 2 ^ 31 := by norm_num
  have hbit : ∀ k, (m.cr0 ||| 0x80000000).testBit k = (m.cr0.testBit k || decide (31 = k)) := by
    intro k
    rw [h31, Nat.testBit_or, Nat.testBit_two_pow]
  have hcr3 : (switch_page_directory m dir tables_physical_offset).cr3
      = u32 (dir + tables_physical_offset) := rfl
  refine ⟨rfl, rfl, ?_, ?_, ?_, ?_, ?_⟩
  · intro hoff
    rw [hcr3]
    unfold physical_address
    rw [if_pos hoff]
  · intro pg hpg hpres hframe
    rw [hcr3]
    unfold physical_address
    by_cases hoff : m.cr0 &&& 0x80000000 = 0
    · rw [if_pos hoff]
    · rw [if_neg hoff, hpg]
      dsimp only
      rw [if_pos hpres, hframe]
      congr 1
      omega
  · show (m.cr0 ||| 0x80000000).testBit 31 = true
    rw [hbit]; simp
  · show (m.cr0 ||| 0x80000000) &&& 0x80000000 = 0x80000000
    apply Nat.eq_of_testBit_eq
    intro k
    rw [Nat.testBit_and, hbit, h31, Nat.testBit_two_pow]
    by_cases hk : 31 = k <;> simp [hk]
  · intro k hk
    show (m.cr0 ||| 0x80000000).testBit k = m.cr0.testBit k
    rw [hbit]
    have : ¬ 31 = k := fun e => hk e.symm
    simp [this]

/-- Witness of the amended C17: a call with translation off (CR0 = `0x11`)
for a directory at `0x105000` whose array lies at offset `0x1000`; CR3 gets
`0x106000`, which is the physical address of the array. -/
theorem switch_page_directory_effect_witness :
    (switch_page_directory ⟨0, 0, 0x11⟩ 0x105000 0x1000).cr3 = 0x106000 ∧
    physical_address 0x11 PageDirectory.empty (0x105000 + 0x1000)
      = some (switch_page_directory ⟨0, 0, 0x11⟩ 0x105000 0x1000).cr3 :=
  ⟨by decide,
    (switch_page_directory_effect ⟨0, 0, 0x11⟩ 0x105000 0x1000 PageDirectory.empty).2.2.1
      (by decide)⟩

/-- C15: `free_frame` leaves the bits `present`, `rw` and `user` of the page
unchanged, and when the field `frame` is 0 it changes neither the page nor
the bitmap. -/
theorem free_frame_keeps_flags (frames : List Nat) (page : Page) :
    (free_frame frames page).2.present = page.present ∧
    (free_frame frames page).2.rw = page.rw ∧
    (free_frame frames page).2.user = page.user ∧
    (page.frame = 0 → free_frame frames page = (frames, page)) := by
  unfold free_frame
  by_cases h : page.frame = 0
  · simp [h]
  · simp [h]

theorem get_page_place (address : Nat) (make : Int) (dir : PageDirectory)
    (fresh : PageTable) (tmp : Nat) :
    (get_page address 1 dir fresh tmp).1
      = some { table_idx := u32 address / 0x1000 / 1024
               page_idx := u32 address / 0x1000 % 1024 } ∧
    ∀ r, (get_page address make dir fresh tmp).1 = some r →
      r = { table_idx := u32 address / 0x1000 / 1024
            page_idx := u32 address / 0x1000 % 1024 } := by
  constructor
  · cases hslot : dir.tables.getD (u32 address / 0x1000 / 1024) none with
    | some t => rw [get_page_present address 1 dir fresh tmp t hslot]
    | none => rw [get_page_absent_make address 1 dir fresh tmp (by norm_num) hslot]
  · intro r hr
    cases hslot : dir.tables.getD (u32 address / 0x1000 / 1024) none with
    | some t =>
      rw [get_page_present address make dir fresh tmp t hslot] at hr
      exact (Option.some.inj hr).symm
    | none =>
      by_cases hmake : make = 0
      · subst hmake
        rw [get_page_absent_no_make address dir fresh tmp hslot] at hr
        cases hr
      · rw [get_page_absent_make address make dir fresh tmp hmake hslot] at hr
        exact (Option.some.inj hr).symm

/-- C14: for every 32-bit address, the directory index `address/0x1000/1024`
and the table index `address/0x1000%1024` that `get_page` computes are below
1024 and are bits 31..22 and bits 21..12 of the address; they are the indices
of the entry that `get_page` returns. -/
theorem get_page_indices_in_range (address : Nat) (make : Int) (dir : PageDirectory)
    (fresh : PageTable) (tmp : Nat) :
    u32 address / 0x1000 / 1024 < 1024 ∧
    u32 address / 0x1000 % 1024 < 1024 ∧
    u32 address / 0x1000 / 1024 = u32 address >>> 22 ∧
    u32 address / 0x1000 % 1024 = (u32 address >>> 12) &&& 0x3FF ∧
    (∀ k, k < 10 → (u32 address / 0x1000 / 1024).testBit k = (u32 address).testBit (22 + k)) ∧
    (∀ k, k < 10 → (u32 address / 0x1000 % 1024).testBit k = (u32 address).testBit (12 + k)) ∧
    (get_page address 1 dir fresh tmp).1
      = some { table_idx := u32 address / 0x1000 / 1024
               page_idx := u32 address / 0x1000 % 1024 } ∧
    ∀ r, (get_page address make dir fresh tmp).1 = some r →
      r = { table_idx := u32 address / 0x1000 / 1024
            page_idx := u32 address / 0x1000 % 1024 } := by
  have hdiv : u32 address / 0x1000 / 1024 = u32 address >>> 22 := by
    rw [Nat.shiftRight_eq_div_pow, Nat.div_div_eq_div_mul]
  have hmod : u32 address / 0x1000 % 1024 = (u32 address >>> 12) &&& 0x3FF := by
    have : (0x3FF : Nat) = 2 ^ 10 - 1 := by norm_num
    rw [this, Nat.and_pow_two_sub_one_eq_mod, Nat.shiftRight_eq_div_pow]
  refine ⟨table_idx_lt address, Nat.mod_lt _ (by norm_num), hdiv, hmod, ?_, ?_, ?_, ?_⟩
  · intro k _
    rw [hdiv, Nat.testBit_shiftRight]
  · intro k hk
    have : (0x3FF : Nat) = 2 ^ 10 - 1 := by norm_num
    rw [hmod, Nat.testBit_and, Nat.testBit_shiftRight, this, Nat.testBit_two_pow_sub_one]
    simp [hk]
  · exact (get_page_place address make dir fresh tmp).1
  · exact (get_page_place address make dir fresh tmp).2

/-! ## More claims on `get_page` -/

theorem getD_set_table_ne (l : List (Option PageTable)) (i j : Nat) (t : Option PageTable)
    (h : i ≠ j) : (l.set i t).getD j none = l.getD j none := by
  simp [List.getD_eq_getElem?_getD, List.getElem?_set, h]

theorem or_seven_of_aligned (p : Nat) (h : p % 0x1000 = 0) : p ||| 0x7 = p + 7 := by
  have hp : p = 2 ^ 12 * (p / 0x1000) := by
    have : (2 : Nat) ^ 12 = 0x1000 := by norm_num
    rw [this]; omega
  have h7 : (7 : Nat) < 2 ^ 12 := by norm_num
  have := Nat.mul_add_lt_is_or h7 (p / 0x1000)
  rw [← hp] at this
  exact this.symm

/-- C16: when `get_page(address, 1, dir)` creates a table for an absent
directory slot and the allocator returns the page-aligned physical address
`p`, the word of the slot in `tables_physical` is `p | 0x7`: its bits `0x1`,
`0x2` and `0x4` are set and its upper 20 bits are those of `p`; `tables` and
`tables_physical` of every other slot are unchanged. -/
theorem get_page_tables_physical (address : Nat) (dir : PageDirectory) (fresh : PageTable)
    (p : Nat)
    (hlen : dir.tables_physical.length = 1024)
    (habsent : dir.tables.getD (u32 address / 0x1000 / 1024) none = none)
    (hp : p < 2 ^ 32) (halign : p % 0x1000 = 0) :
    ((get_page address 1 dir fresh p).2.tables_physical.getD
        (u32 address / 0x1000 / 1024) 0).testBit 0 = true ∧
    ((get_page address 1 dir fresh p).2.tables_physical.getD
        (u32 address / 0x1000 / 1024) 0).testBit 1 = true ∧
    ((get_page address 1 dir fresh p).2.tables_physical.getD
        (u32 address / 0x1000 / 1024) 0).testBit 2 = true ∧
    (get_page address 1 dir fresh p).2.tables_physical.getD
        (u32 address / 0x1000 / 1024) 0 &&& 0x7 = 0x7 ∧
    (get_page address 1 dir fresh p).2.tables_physical.getD
        (u32 address / 0x1000 / 1024) 0 / 0x1000 * 0x1000 = p ∧
    (get_page address 1 dir fresh p).2.tables_physical.getD
        (u32 address / 0x1000 / 1024) 0 = p + 7 ∧
    ∀ j, j ≠ u32 address / 0x1000 / 1024 →
      (get_page address 1 dir fresh p).2.tables.getD j none = dir.tables.getD j none ∧
      (get_page address 1 dir fresh p).2.tables_physical.getD j 0
        = dir.tables_physical.getD j 0 := by
  have hword : (get_page address 1 dir fresh p).2.tables_physical.getD
      (u32 address / 0x1000 / 1024) 0 = p + 7 := by
    rw [get_page_absent_make address 1 dir fresh p (by norm_num) habsent]
    dsimp only
    rw [getD_set_eq, if_pos ⟨rfl, by rw [hlen]; exact table_idx_lt address⟩]
    have : u32 p = p := Nat.mod_eq_of_lt hp
    rw [this, or_seven_of_aligned p halign]
  have hor : p + 7 = p ||| 0x7 := (or_seven_of_aligned p halign).symm
  refine ⟨?_, ?_, ?_, ?_, ?_, hword, ?_⟩
  · rw [hword, hor, Nat.testBit_or]; simp
  · rw [hword, hor, Nat.testBit_or]
    have : (7 : Nat).testBit 1 = true := by decide
    simp [this]
  · rw [hword, hor, Nat.testBit_or]
    have : (7 : Nat).testBit 2 = true := by decide
    simp [this]
  · rw [hword]
    have : (0x7 : Nat) = 2 ^ 3 - 1 := by norm_num
    rw [this, Nat.and_pow_two_sub_one_eq_mod]
    omega
  · rw [hword]; omega
  · intro j hj
    rw [get_page_absent_make address 1 dir fresh p (by norm_num) habsent]
    dsimp only
    refine ⟨getD_set_table_ne _ _ _ _ (fun e => hj e.symm), ?_⟩
    rw [getD_set_eq, if_neg (fun e => hj e.1.symm)]

/-- Witness of C16: the address `0x00400000` in a directory without tables,
the allocator returning the physical address `0x105000`. -/
theorem get_page_tables_physical_witness :
    (get_page 0x00400000 1 PageDirectory.empty ⟨[]⟩ 0x105000).2.tables_physical.getD
        (u32 0x00400000 / 0x1000 / 1024) 0 / 0x1000 * 0x1000 = 0x105000 ∧
    (get_page 0x00400000 1 PageDirectory.empty ⟨[]⟩ 0x105000).2.tables_physical.getD
        (u32 0x00400000 / 0x1000 / 1024) 0 = 0x105000 + 7 :=
  ⟨(get_page_tables_physical 0x00400000 PageDirectory.empty ⟨[]⟩ 0x105000
      (List.length_replicate _ _) (empty_slot _) (by norm_num) (by norm_num)).2.2.2.2.1,
    (get_page_tables_physical 0x00400000 PageDirectory.empty ⟨[]⟩ 0x105000
      (List.length_replicate _ _) (empty_slot _) (by norm_num) (by norm_num)).2.2.2.2.2.1⟩

/-- C20: `get_page` resolves two 32-bit addresses `a` and `b` to the same
pair of directory slot and table entry if and only if `a/0x1000` equals
`b/0x1000`. -/
theorem get_page_same_place_iff (a b : Nat) (make make2 : Int) (dir : PageDirectory)
    (fresh fresh2 : PageTable) (tmp tmp2 : Nat) :
    ((get_page a 1 dir fresh tmp).1 = (get_page b 1 dir fresh2 tmp2).1
      ↔ u32 a / 0x1000 = u32 b / 0x1000) ∧
    ∀ ra rb, (get_page a make dir fresh tmp).1 = some ra →
      (get_page b make2 dir fresh2 tmp2).1 = some rb →
      (ra = rb ↔ u32 a / 0x1000 = u32 b / 0x1000) := by
  have key : ((⟨u32 a / 0x1000 / 1024, u32 a / 0x1000 % 1024⟩ : PageRef)
      = ⟨u32 b / 0x1000 / 1024, u32 b / 0x1000 % 1024⟩) ↔ u32 a / 0x1000 = u32 b / 0x1000 := by
    constructor
    · intro h
      injection h with h1 h2
      omega
    · intro h
      rw [h]
  have ha := get_page_place a
  have hb := get_page_place b
  constructor
  · rw [(ha 1 dir fresh tmp).1, (hb 1 dir fresh2 tmp2).1]
    constructor
    · intro h; exact key.mp (Option.some.inj h)
    · intro h; rw [key.mpr h]
  · intro ra rb hra hrb
    rw [(ha make dir fresh tmp).2 ra hra, (hb make2 dir fresh2 tmp2).2 rb hrb]
    exact key

/-! ## Bits of other frames -/

theorem frame_bit_eq_of_testBit (f g : List Nat) (k : Nat)
    (h : (f.getD (k / 32) 0).testBit (k % 32) = (g.getD (k / 32) 0).testBit (k % 32)) :
    frame_bit f k = frame_bit g k := by
  unfold frame_bit INDEX_FROM_BIT OFFSET_FROM_BIT
  apply Nat.eq_of_testBit_eq
  intro c
  rw [Nat.one_shiftLeft, Nat.testBit_and, Nat.testBit_and, Nat.testBit_two_pow]
  by_cases hc : k % (8 * 4) = c
  · subst hc
    have h2 : k / (8 * 4) = k / 32 := rfl
    have h3 : k % (8 * 4) = k % 32 := rfl
    rw [h2, h3, h]
  · simp [hc]

theorem frame_bit_set_frame_other (frames : List Nat) (addr j : Nat)
    (hne : j ≠ u32 addr / 0x1000) :
    frame_bit (set_frame frames addr) j = frame_bit frames j := by
  by_cases hin : u32 addr / 0x1000 / 32 < frames.length
  · apply frame_bit_eq_of_testBit
    rw [testBit_set_frame _ _ _ _ hin]
    have : ¬ (j / 32 = u32 addr / 0x1000 / 32 ∧ j % 32 = u32 addr / 0x1000 % 32) := by omega
    simp [this]
  · have : set_frame frames addr = frames := by
      unfold set_frame INDEX_FROM_BIT
      exact List.set_eq_of_length_le (Nat.le_of_not_lt hin)
    rw [this]

theorem frame_bit_clear_frame_other (frames : List Nat) (addr j : Nat)
    (hne : j ≠ u32 addr / 0x1000) :
    frame_bit (clear_frame frames addr) j = frame_bit frames j := by
  by_cases hin : u32 addr / 0x1000 / 32 < frames.length
  · apply frame_bit_eq_of_testBit
    rw [testBit_clear_frame _ _ _ _ hin]
    have h32 : j % 32 < 32 := Nat.mod_lt _ (by norm_num)
    have : ¬ (j / 32 = u32 addr / 0x1000 / 32 ∧
        (j % 32 = u32 addr / 0x1000 % 32 ∨ 32 ≤ j % 32)) := by omega
    simp [this]
  · have : clear_frame frames addr = frames := by
      unfold clear_frame INDEX_FROM_BIT
      exact List.set_eq_of_length_le (Nat.le_of_not_lt hin)
    rw [this]

/-- C19: for every 32-bit address `a` and every frame index `j` different
from `a/0x1000`, `set_frame(a)` and `clear_frame(a)` leave the bit of frame
`j` unchanged: `test_frame(j*0x1000)` gives the same value before and
after. -/
theorem set_clear_frame_other_bits (frames : List Nat) (a j : Nat)
    (ha : a < 2 ^ 32) (hj : j < 2 ^ 20) (hne : j ≠ a / 0x1000) :
    test_frame (set_frame frames a) (j * 0x1000) = test_frame frames (j * 0x1000) ∧
    test_frame (clear_frame frames a) (j * 0x1000) = test_frame frames (j * 0x1000) := by
  have hu : u32 a = a := Nat.mod_eq_of_lt ha
  have hne2 : j ≠ u32 a / 0x1000 := by rw [hu]; exact hne
  rw [test_frame_mul _ _ hj, test_frame_mul _ _ hj, test_frame_mul _ _ hj]
  exact ⟨frame_bit_set_frame_other frames a j hne2, frame_bit_clear_frame_other frames a j hne2⟩

/-- Witness of C19: frame 33 is set, then cleared, in a bitmap where frames
0, 2 and 34 are taken; the bit of frame 34 is unchanged. -/
theorem set_clear_frame_other_bits_witness :
    test_frame (set_frame [0x5, 0x4] 0x21abc) (34 * 0x1000) = test_frame [0x5, 0x4] (34 * 0x1000) ∧
    test_frame (clear_frame [0x5, 0x4] 0x21abc) (34 * 0x1000)
      = test_frame [0x5, 0x4] (34 * 0x1000) :=
  set_clear_frame_other_bits [0x5, 0x4] 0x21abc 34 (by norm_num) (by norm_num) (by decide)

/-! ## The mapping loop of `init_paging` -/

theorem first_frame_eq_of_prefix (frames : List Nat) (nframes k : Nat)
    (hn : nframes < 2 ^ 32) (hk : k < 32 * (nframes / 32))
    (hbits : ∀ i c, (frames.getD i 0).testBit c = decide (c < 32 ∧ 32 * i + c < k)) :
    first_frame frames nframes = k := by
  have hclear : frame_bit frames k = 0 := by
    rw [frame_bit_eq_zero_iff, hbits]
    have : ¬ (k % 32 < 32 ∧ 32 * (k / 32) + k % 32 < k) := by omega
    simp [this]
  have hset : ∀ m, m < k → frame_bit frames m ≠ 0 := by
    intro m hm
    rw [frame_bit_ne_zero_iff, hbits]
    have : m % 32 < 32 ∧ 32 * (m / 32) + m % 32 < k := by omega
    simp [this]
  cases hs : first_frame_scan frames nframes with
  | none => exact absurd hclear (first_frame_scan_none frames nframes hs k hk)
  | some r =>
    obtain ⟨_, h2, h3⟩ := first_frame_scan_some frames nframes r hn hs
    have hff : first_frame frames nframes = r := by unfold first_frame; rw [hs]
    rw [hff]
    by_contra hne
    rcases Nat.lt_or_gt_of_ne hne with h | h
    · exact hset r h h2
    · exact h3 k h hclear

theorem alloc_frame_next (frames : List Nat) (nframes k : Nat)
    (hn : nframes < 2 ^ 20) (hk : k < 32 * (nframes / 32))
    (hbits : ∀ i c, (frames.getD i 0).testBit c = decide (c < 32 ∧ 32 * i + c < k)) :
    alloc_frame frames nframes ⟨0, 0, 0, 0⟩ 0 0
      = (set_frame frames (k * 0x1000), ⟨1, 0, 1, k⟩) := by
  have hn32 : nframes < 2 ^ 32 := by
    have : (2 : Nat) ^ 20 < 2 ^ 32 := by norm_num
    omega
  rw [alloc_frame_unset _ _ _ _ _ rfl, first_frame_eq_of_prefix frames nframes k hn32 hk hbits]
  have hk20 : k < 2 ^ 20 := by omega
  have : frameField k = k := Nat.mod_eq_of_lt hk20
  rw [this]
  simp

theorem set_frame_next (frames : List Nat) (nframes k : Nat)
    (hn : nframes < 2 ^ 20) (hk : k < 32 * (nframes / 32))
    (hlen : INDEX_FROM_BIT nframes ≤ frames.length)
    (hbits : ∀ i c, (frames.getD i 0).testBit c = decide (c < 32 ∧ 32 * i + c < k)) :
    ∀ i c, ((set_frame frames (k * 0x1000)).getD i 0).testBit c
      = decide (c < 32 ∧ 32 * i + c < k + 1) := by
  intro i c
  have hk20 : k < 2 ^ 20 := by omega
  have hu : u32 (k * 0x1000) / 0x1000 = k := by rw [u32_mul_page, Nat.mod_eq_of_lt hk20]
  have hin : u32 (k * 0x1000) / 0x1000 / 32 < frames.length := by
    unfold INDEX_FROM_BIT at hlen
    rw [hu]; omega
  rw [testBit_set_frame _ _ _ _ hin, hu, hbits]
  have : (c < 32 ∧ 32 * i + c < k + 1)
      ↔ ((c < 32 ∧ 32 * i + c < k) ∨ (i = k / 32 ∧ c = k % 32)) := by
    constructor <;> intro h <;> omega
  rw [decide_eq_decide.mpr this, Bool.decide_or]

theorem entry_eq (dir : PageDirectory) (t j : Nat) (T : PageTable)
    (h : dir.tables.getD t none = some T) :
    dir.entry { table_idx := t, page_idx := j } = T.pages[j]? := by
  unfold PageDirectory.entry
  dsimp only
  rw [h]

theorem setEntry_eq (dir : PageDirectory) (t j : Nat) (T : PageTable) (pg : Page)
    (h : dir.tables.getD t none = some T) :
    dir.setEntry { table_idx := t, page_idx := j } pg
      = { tables := dir.tables.set t (some { pages := T.pages.set j pg })
          tables_physical := dir.tables_physical } := by
  unfold PageDirectory.setEntry
  dsimp only
  rw [h]

theorem init_paging_step_present (nframes : Nat) (kmalloc_ap : Nat → Kmalloc) (k : Nat)
    (s : PagingState) (T : PageTable) (pg : Page) (hk : k < 2 ^ 20)
    (hslot : s.dir.tables.getD (k / 1024) none = some T)
    (hpg : T.pages[k % 1024]? = some pg) :
    init_paging_step nframes kmalloc_ap (k * 0x1000) s
      = PagingState.mk (alloc_frame s.frames nframes pg 0 0).1
          (PageDirectory.mk
            (s.dir.tables.set (k / 1024)
              (some (PageTable.mk
                (T.pages.set (k % 1024) (alloc_frame s.frames nframes pg 0 0).2))))
            s.dir.tables_physical)
          s.placement_address := by
  have hu : u32 (k * 0x1000) / 0x1000 = k := by rw [u32_mul_page, Nat.mod_eq_of_lt hk]
  have hslot2 : s.dir.tables.getD (u32 (k * 0x1000) / 0x1000 / 1024) none = some T := by
    rw [hu]; exact hslot
  unfold init_paging_step
  dsimp only
  rw [get_page_present _ 1 s.dir _ _ T hslot2, hslot2]
  dsimp only
  rw [hu, entry_eq _ _ _ T hslot, hpg]
  dsimp only
  rw [setEntry_eq _ _ _ T _ hslot]

theorem init_paging_step_absent (nframes : Nat) (kmalloc_ap : Nat → Kmalloc) (k : Nat)
    (s : PagingState) (pg : Page) (hk : k < 2 ^ 20)
    (hlen : s.dir.tables.length = 1024)
    (hslot : s.dir.tables.getD (k / 1024) none = none)
    (hpg : (kmalloc_ap s.placement_address).table.pages[k % 1024]? = some pg) :
    init_paging_step nframes kmalloc_ap (k * 0x1000) s
      = PagingState.mk (alloc_frame s.frames nframes pg 0 0).1
          (PageDirectory.mk
            ((s.dir.tables.set (k / 1024)
                (some (kmalloc_ap s.placement_address).table)).set (k / 1024)
              (some (PageTable.mk
                ((kmalloc_ap s.placement_address).table.pages.set (k % 1024)
                  (alloc_frame s.frames nframes pg 0 0).2))))
            (s.dir.tables_physical.set (k / 1024)
              (u32 (kmalloc_ap s.placement_address).phys ||| 0x7)))
          (kmalloc_ap s.placement_address).placement_address := by
  have hu : u32 (k * 0x1000) / 0x1000 = k := by rw [u32_mul_page, Nat.mod_eq_of_lt hk]
  have hslot2 : s.dir.tables.getD (u32 (k * 0x1000) / 0x1000 / 1024) none = none := by
    rw [hu]; exact hslot
  have hlt : k / 1024 < s.dir.tables.length := by rw [hlen]; omega
  have hnew : (s.dir.tables.set (k / 1024) (some (kmalloc_ap s.placement_address).table)).getD
      (k / 1024) none = some (kmalloc_ap s.placement_address).table :=
    getD_set_table _ _ _ hlt
  unfold init_paging_step
  dsimp only
  rw [get_page_absent_make _ 1 s.dir _ _ (by norm_num) hslot2, hslot2]
  dsimp only
  rw [hu, entry_eq _ _ _ _ hnew, hpg]
  dsimp only
  rw [setEntry_eq _ _ _ _ _ hnew]

theorem identity_entry_succ (k m : Nat) (h : m ≠ k) :
    identity_entry (k + 1) m = identity_entry k m := by
  unfold identity_entry
  by_cases hlt : m < k
  · rw [if_pos hlt, if_pos (by omega)]
  · rw [if_neg hlt, if_neg (by omega)]

theorem identity_entry_self (k : Nat) : identity_entry (k + 1) k = ⟨1, 0, 1, k⟩ := by
  unfold identity_entry
  rw [if_pos (by omega)]

theorem tables_step (old tables1 : List (Option PageTable)) (T1 : PageTable) (k : Nat)
    (hlen1 : tables1.length = 1024) (hk : k < 2 ^ 20)
    (hT1len : T1.pages.length = 1024)
    (hT1 : ∀ j, j < 1024 → T1.pages[j]? = some (identity_entry k (k / 1024 * 1024 + j)))
    (hother : ∀ t, t ≠ k / 1024 → tables1.getD t none = old.getD t none)
    (hold : ∀ t T, old.getD t none = some T →
      T.pages.length = 1024 ∧
      ∀ j, j < 1024 → T.pages[j]? = some (identity_entry k (t * 1024 + j)))
    (hpres : ∀ m, m < k → old.getD (m / 1024) none ≠ none) :
    (∀ t T, (tables1.set (k / 1024)
        (some (PageTable.mk (T1.pages.set (k % 1024) ⟨1, 0, 1, k⟩)))).getD t none = some T →
      T.pages.length = 1024 ∧
      ∀ j, j < 1024 → T.pages[j]? = some (identity_entry (k + 1) (t * 1024 + j))) ∧
    (∀ m, m < k + 1 → (tables1.set (k / 1024)
        (some (PageTable.mk (T1.pages.set (k % 1024) ⟨1, 0, 1, k⟩)))).getD (m / 1024) none
      ≠ none) := by
  have hlt : k / 1024 < tables1.length := by rw [hlen1]; omega
  constructor
  · intro t T hT
    by_cases ht : t = k / 1024
    · subst ht
      rw [getD_set_table _ _ _ hlt] at hT
      injection hT with hT
      subst hT
      constructor
      · show (T1.pages.set (k % 1024) ⟨1, 0, 1, k⟩).length = 1024
        rw [List.length_set]; exact hT1len
      · intro j hj
        show (T1.pages.set (k % 1024) ⟨1, 0, 1, k⟩)[j]? = _
        rw [List.getElem?_set]
        by_cases hj0 : k % 1024 = j
        · have hkj : k / 1024 * 1024 + j = k := by omega
          rw [if_pos hj0, if_pos (by rw [hT1len]; omega), hkj, identity_entry_self]
        · rw [if_neg hj0, hT1 j hj, identity_entry_succ _ _ (by omega)]
    · rw [getD_set_table_ne _ _ _ _ (fun e => ht e.symm), hother t ht] at hT
      obtain ⟨h1, h2⟩ := hold t T hT
      refine ⟨h1, fun j hj => ?_⟩
      rw [h2 j hj, identity_entry_succ _ _ (by omega)]
  · intro m hm
    by_cases ht : m / 1024 = k / 1024
    · rw [ht, getD_set_table _ _ _ hlt]
      exact Option.some_ne_none _
    · rw [getD_set_table_ne _ _ _ _ (fun e => ht e.symm), hother _ ht]
      exact hpres m (by omega)

theorem init_paging_step_inv (nframes : Nat) (kmalloc_ap : Nat → Kmalloc) (p0 k : Nat)
    (s : PagingState) (hn : nframes < 2 ^ 20) (h32 : nframes % 32 = 0)
    (hzero : ∀ p, (kmalloc_ap p).table = PageTable.zero) (hk : k < nframes)
    (hinv : LoopInv nframes kmalloc_ap p0 k s) :
    LoopInv nframes kmalloc_ap p0 (k + 1) (init_paging_step nframes kmalloc_ap (k * 0x1000) s) := by
  obtain ⟨hbits, hlen, hdlen, htab, hpres, n, hnk, hpl⟩ := hinv
  have hk20 : k < 2 ^ 20 := by omega
  have hk32 : k < 32 * (nframes / 32) := by omega
  have halloc := alloc_frame_next s.frames nframes k hn hk32 hbits
  have hbits2 := set_frame_next s.frames nframes k hn hk32 hlen hbits
  have hkk : k / 1024 * 1024 + k % 1024 = k := by omega
  cases hslot : s.dir.tables.getD (k / 1024) none with
  | some T =>
    obtain ⟨hTlen, hT⟩ := htab _ T hslot
    have hpg : T.pages[k % 1024]? = some ⟨0, 0, 0, 0⟩ := by
      rw [hT _ (Nat.mod_lt _ (by norm_num)), hkk]
      unfold identity_entry
      rw [if_neg (Nat.lt_irrefl k)]
    rw [init_paging_step_present nframes kmalloc_ap k s T _ hk20 hslot hpg, halloc]
    obtain ⟨h1, h2⟩ := tables_step s.dir.tables s.dir.tables T k hdlen hk20 hTlen hT
      (fun _ _ => rfl) htab hpres
    unfold LoopInv
    refine ⟨hbits2, ?_, ?_, h1, h2, n, by omega, hpl⟩
    · show INDEX_FROM_BIT nframes ≤ (set_frame s.frames (k * 0x1000)).length
      rw [length_set_frame]; exact hlen
    · show (s.dir.tables.set _ _).length = 1024
      rw [List.length_set]; exact hdlen
  | none =>
    have hz := hzero s.placement_address
    have hpg : (kmalloc_ap s.placement_address).table.pages[k % 1024]? = some ⟨0, 0, 0, 0⟩ := by
      rw [hz]
      exact getElem?_replicate_lt 1024 _ _ (Nat.mod_lt _ (by norm_num))
    rw [init_paging_step_absent nframes kmalloc_ap k s _ hk20 hdlen hslot hpg, halloc]
    have hlen1 : (s.dir.tables.set (k / 1024)
        (some (kmalloc_ap s.placement_address).table)).length = 1024 := by
      rw [List.length_set]; exact hdlen
    have hT1len : (kmalloc_ap s.placement_address).table.pages.length = 1024 := by
      rw [hz]; exact List.length_replicate _ _
    have hT1 : ∀ j, j < 1024 → (kmalloc_ap s.placement_address).table.pages[j]?
        = some (identity_entry k (k / 1024 * 1024 + j)) := by
      intro j hj
      rw [hz]
      have hge : ¬ k / 1024 * 1024 + j < k := by
        intro hlt
        apply hpres _ hlt
        have : (k / 1024 * 1024 + j) / 1024 = k / 1024 := by omega
        rw [this]; exact hslot
      unfold identity_entry
      rw [if_neg hge]
      exact getElem?_replicate_lt 1024 _ _ hj
    obtain ⟨h1, h2⟩ := tables_step s.dir.tables _ _ k hlen1 hk20 hT1len hT1
      (fun t ht => getD_set_table_ne _ _ _ _ (fun e => ht e.symm)) htab hpres
    have hk0 : k % 1024 = 0 := by
      by_contra hne
      apply hpres (k - 1) (by omega)
      have : (k - 1) / 1024 = k / 1024 := by omega
      rw [this]; exact hslot
    unfold LoopInv
    refine ⟨hbits2, ?_, ?_, h1, h2, n + 1, by omega, ?_⟩
    · show INDEX_FROM_BIT nframes ≤ (set_frame s.frames (k * 0x1000)).length
      rw [length_set_frame]; exact hlen
    · show (List.set _ _ _).length = 1024
      rw [List.length_set]; exact hlen1
    · show (kmalloc_ap s.placement_address).placement_address = watermark kmalloc_ap p0 (n + 1)
      rw [hpl]; rfl

theorem init_paging_loop_inv (nframes : Nat) (kmalloc_ap : Nat → Kmalloc) (p0 : Nat)
    (hn : nframes < 2 ^ 20) (h32 : nframes % 32 = 0)
    (hzero : ∀ p, (kmalloc_ap p).table = PageTable.zero)
    (hbound : ∀ n, n ≤ (nframes + 1023) / 1024 → watermark kmalloc_ap p0 n ≤ nframes * 0x1000) :
    ∀ fuel k s, LoopInv nframes kmalloc_ap p0 k s → k ≤ nframes → nframes + 1 ≤ fuel + k →
      ∃ s2 k2, init_paging_loop nframes kmalloc_ap fuel (k * 0x1000) s = some s2 ∧
        LoopInv nframes kmalloc_ap p0 k2 s2 ∧ k2 ≤ nframes ∧
        s2.placement_address ≤ k2 * 0x1000 := by
  intro fuel
  induction fuel with
  | zero => intro k s _ hk hfuel; omega
  | succ fuel ih =>
    intro k s hinv hk hfuel
    unfold init_paging_loop
    by_cases hc : k * 0x1000 < s.placement_address
    · rw [if_pos hc]
      have hpl : s.placement_address ≤ nframes * 0x1000 := by
        obtain ⟨_, _, _, _, _, n, hnk, hpl⟩ := hinv
        rw [hpl]
        exact hbound n (by omega)
      have hk2 : k < nframes := by omega
      have hi : u32 (k * 0x1000 + 0x1000) = (k + 1) * 0x1000 := by
        unfold u32
        have : (2 : Nat) ^ 32 = 4294967296 := by norm_num
        have : (2 : Nat) ^ 20 = 1048576 := by norm_num
        omega
      rw [hi]
      exact ih (k + 1) _
        (init_paging_step_inv nframes kmalloc_ap p0 k s hn h32 hzero hk2 hinv)
        (by omega) (by omega)
    · rw [if_neg hc]
      exact ⟨s, k, rfl, hinv, hk, by omega⟩

theorem getD_of_all_zero (frames : List Nat) (h : ∀ w ∈ frames, w = 0) (i : Nat) :
    frames.getD i 0 = 0 := by
  rw [List.getD_eq_getElem?_getD]
  cases hi : frames[i]? with
  | none => rfl
  | some w => exact h w (List.getElem?_mem hi)

theorem loopInv_start (nframes : Nat) (kmalloc_ap : Nat → Kmalloc) (p0 : Nat)
    (frames : List Nat) (dir : PageDirectory)
    (hclear : ∀ w ∈ frames, w = 0) (hlen : INDEX_FROM_BIT nframes ≤ frames.length)
    (hdlen : dir.tables.length = 1024)
    (hdir : ∀ t ∈ dir.tables, t = none ∨ t = some PageTable.zero) :
    LoopInv nframes kmalloc_ap p0 0 ⟨frames, dir, p0⟩ := by
  unfold LoopInv
  refine ⟨?_, hlen, hdlen, ?_, ?_, 0, Nat.zero_le _, rfl⟩
  · intro i c
    show (frames.getD i 0).testBit c = _
    rw [getD_of_all_zero frames hclear i]
    simp
  · intro t T hT
    have hT2 : dir.tables.getD t none = some T := hT
    rw [List.getD_eq_getElem?_getD] at hT2
    have hmem : some T ∈ dir.tables := by
      cases hi : dir.tables[t]? with
      | none => rw [hi] at hT2; cases hT2
      | some x =>
        rw [hi] at hT2
        have hx : x = some T := hT2
        rw [← hx]
        exact List.getElem?_mem hi
    rcases hdir _ hmem with h | h
    · cases h
    · have hTz : T = PageTable.zero := (Option.some.inj h)
      rw [hTz]
      refine ⟨List.length_replicate _ _, fun j hj => ?_⟩
      unfold identity_entry
      rw [if_neg (Nat.not_lt_zero _)]
      exact getElem?_replicate_lt 1024 _ _ hj
  · intro m hm
    exact absurd hm (Nat.not_lt_zero _)

/-- The loop of `init_paging` when every table that the allocator hands back
is zeroed: started with `i = 0` on an all-clear bitmap that holds the words
`first_frame` scans and on a directory whose tables are zeroed, the loop
ends, and for every page-aligned address `a` below the final watermark the
entry that `get_page` finds for `a` is present with `frame = a/0x1000`.  The
watermark stays at most `nframes * 0x1000` over the calls of the allocator,
at most one for each of the `nframes / 1024` tables. -/
theorem init_paging_identity_map (kmalloc_ap : Nat → Kmalloc) (frames : List Nat)
    (dir : PageDirectory) (p0 fuel : Nat)
    (hclear : ∀ w ∈ frames, w = 0)
    (hlen : INDEX_FROM_BIT init_nframes ≤ frames.length)
    (hdlen : dir.tables.length = 1024)
    (hdir : ∀ t ∈ dir.tables, t = none ∨ t = some PageTable.zero)
    (hzero : ∀ p, (kmalloc_ap p).table = PageTable.zero)
    (hbound : ∀ n, n ≤ init_nframes / 1024 →
      watermark kmalloc_ap p0 n ≤ init_nframes * 0x1000)
    (hfuel : init_nframes + 1 ≤ fuel) :
    ∃ s, init_paging_loop init_nframes kmalloc_ap fuel 0 ⟨frames, dir, p0⟩ = some s ∧
      s.placement_address ≤ init_nframes * 0x1000 ∧
      ∀ a fresh tmp, a % 0x1000 = 0 → a < s.placement_address →
        ∃ r pg, (get_page a 0 s.dir fresh tmp).1 = some r ∧ s.dir.entry r = some pg ∧
          pg.present = 1 ∧ pg.frame = a / 0x1000 := by
  have hN : init_nframes = 4096 := by decide
  obtain ⟨s2, k2, hloop, hinv, hk2, hpl⟩ :=
    init_paging_loop_inv init_nframes kmalloc_ap p0 (by rw [hN]; norm_num) (by rw [hN])
      hzero (by intro n hn; apply hbound; rw [hN] at hn ⊢; omega) fuel 0 ⟨frames, dir, p0⟩
      (loopInv_start init_nframes kmalloc_ap p0 frames dir hclear hlen hdlen hdir)
      (Nat.zero_le _) (by omega)
  rw [Nat.zero_mul] at hloop
  refine ⟨s2, hloop, by omega, ?_⟩
  intro a fresh tmp ha hlt
  obtain ⟨_, _, _, htab, hpres, _⟩ := hinv
  have hm : a / 0x1000 < k2 := by omega
  have hu : u32 a = a := by
    unfold u32
    apply Nat.mod_eq_of_lt
    have : (2 : Nat) ^ 32 = 4294967296 := by norm_num
    omega
  cases hslot : s2.dir.tables.getD (a / 0x1000 / 1024) none with
  | none => exact absurd hslot (hpres _ hm)
  | some T =>
    have hslot2 : s2.dir.tables.getD (u32 a / 0x1000 / 1024) none = some T := by
      rw [hu]; exact hslot
    rw [get_page_present a 0 s2.dir fresh tmp T hslot2, hu]
    refine ⟨_, ⟨1, 0, 1, a / 0x1000⟩, rfl, ?_, rfl, rfl⟩
    rw [entry_eq _ _ _ T hslot, (htab _ T hslot).2 _ (Nat.mod_lt _ (by norm_num))]
    have hkk : a / 0x1000 / 1024 * 1024 + a / 0x1000 % 1024 = a / 0x1000 := by omega
    rw [hkk]
    unfold identity_entry
    rw [if_pos hm]

/-- An instance of `init_paging_identity_map`: a bump allocator that hands
back zeroed tables and moves the watermark by one page, started at the
watermark `0x3000`, on the all-clear bitmap of 128 words and the directory
without tables. -/
theorem init_paging_identity_map_witness :
    ∃ s, init_paging_loop init_nframes (fun p => ⟨PageTable.zero, p, p + 0x1000⟩) 4097 0
        ⟨List.replicate 128 0, PageDirectory.empty, 0x3000⟩ = some s ∧
      s.placement_address ≤ init_nframes * 0x1000 ∧
      ∀ a fresh tmp, a % 0x1000 = 0 → a < s.placement_address →
        ∃ r pg, (get_page a 0 s.dir fresh tmp).1 = some r ∧ s.dir.entry r = some pg ∧
          pg.present = 1 ∧ pg.frame = a / 0x1000 :=
  init_paging_identity_map (fun p => ⟨PageTable.zero, p, p + 0x1000⟩)
    (List.replicate 128 0) PageDirectory.empty 0x3000 4097
    (fun _ hw => List.eq_of_mem_replicate hw)
    (by rw [List.length_replicate]; decide)
    (List.length_replicate _ _)
    (fun _ ht => Or.inl (List.eq_of_mem_replicate ht))
    (fun _ => rfl)
    (by
      intro n hn
      have h4 : n ≤ 4 := hn
      interval_cases n <;> decide)
    (by decide)

/-! ## The loop of `init_paging` on memory that is not zeroed -/

theorem list_set_same {α : Type} (l : List α) (i : Nat) (v : α) (h : l[i]? = some v) :
    l.set i v = l := by
  apply List.ext_getElem?
  intro n
  rw [List.getElem?_set]
  by_cases hn : i = n
  · subst hn
    have hlt : i < l.length := by
      by_contra hge
      rw [List.getElem?_eq_none (Nat.le_of_not_lt hge)] at h
      cases h
    rw [if_pos rfl, if_pos hlt, h]
  · rw [if_neg hn]

theorem getElem?_of_getD_some (l : List (Option PageTable)) (i : Nat) (T : PageTable)
    (h : l.getD i none = some T) : l[i]? = some (some T) := by
  rw [List.getD_eq_getElem?_getD] at h
  cases hi : l[i]? with
  | none => rw [hi] at h; cases h
  | some x =>
    rw [hi] at h
    have hx : x = some T := h
    rw [hx]

theorem alloc_frame_mapped (frames : List Nat) (nframes : Nat) (page : Page)
    (is_kernel is_writeable : Int) (h : page.frame ≠ 0) :
    alloc_frame frames nframes page is_kernel is_writeable = (frames, page) := by
  unfold alloc_frame
  rw [if_pos h]

theorem init_paging_step_mapped (nframes : Nat) (kmalloc_ap : Nat → Kmalloc) (k : Nat)
    (s : PagingState) (T : PageTable) (pg : Page) (hk : k < 2 ^ 20)
    (hslot : s.dir.tables.getD (k / 1024) none = some T)
    (hpg : T.pages[k % 1024]? = some pg) (hframe : pg.frame ≠ 0) :
    init_paging_step nframes kmalloc_ap (k * 0x1000) s = s := by
  rw [init_paging_step_present nframes kmalloc_ap k s T pg hk hslot hpg,
    alloc_frame_mapped _ _ _ _ _ hframe]
  dsimp only
  rw [list_set_same _ _ _ hpg, list_set_same _ _ _ (getElem?_of_getD_some _ _ _ hslot)]

theorem init_paging_step_new_mapped (nframes : Nat) (kmalloc_ap : Nat → Kmalloc) (k : Nat)
    (s : PagingState) (pg : Page) (hk : k < 2 ^ 20)
    (hlen : s.dir.tables.length = 1024)
    (hslot : s.dir.tables.getD (k / 1024) none = none)
    (hpg : (kmalloc_ap s.placement_address).table.pages[k % 1024]? = some pg)
    (hframe : pg.frame ≠ 0) :
    init_paging_step nframes kmalloc_ap (k * 0x1000) s
      = PagingState.mk s.frames
          (PageDirectory.mk
            (s.dir.tables.set (k / 1024) (some (kmalloc_ap s.placement_address).table))
            (s.dir.tables_physical.set (k / 1024)
              (u32 (kmalloc_ap s.placement_address).phys ||| 0x7)))
          (kmalloc_ap s.placement_address).placement_address := by
  rw [init_paging_step_absent nframes kmalloc_ap k s pg hk hlen hslot hpg,
    alloc_frame_mapped _ _ _ _ _ hframe]
  dsimp only
  have hlt : k / 1024 < s.dir.tables.length := by rw [hlen]; omega
  rw [list_set_same _ _ _ hpg]
  rw [list_set_same (s.dir.tables.set (k / 1024) (some (kmalloc_ap s.placement_address).table))
    (k / 1024) (some (kmalloc_ap s.placement_address).table)
    (getElem?_of_getD_some _ _ _ (getD_set_table _ _ _ hlt))]

theorem init_paging_loop_enter (nframes : Nat) (kmalloc_ap : Nat → Kmalloc) (fuel i : Nat)
    (s : PagingState) (h : i < s.placement_address) :
    init_paging_loop nframes kmalloc_ap (fuel + 1) i s
      = init_paging_loop nframes kmalloc_ap fuel (u32 (i + 0x1000))
          (init_paging_step nframes kmalloc_ap i s) := by
  conv_lhs => unfold init_paging_loop
  rw [if_pos h]

theorem init_paging_loop_enter_page (nframes : Nat) (kmalloc_ap : Nat → Kmalloc)
    (fuel k : Nat) (s : PagingState) (h : k * 0x1000 < s.placement_address)
    (hk : k + 1 < 2 ^ 20) :
    init_paging_loop nframes kmalloc_ap (fuel + 1) (k * 0x1000) s
      = init_paging_loop nframes kmalloc_ap fuel ((k + 1) * 0x1000)
          (init_paging_step nframes kmalloc_ap (k * 0x1000) s) := by
  rw [init_paging_loop_enter _ _ _ _ _ h]
  have hi : u32 (k * 0x1000 + 0x1000) = (k + 1) * 0x1000 := by
    unfold u32
    have : (2 : Nat) ^ 32 = 4294967296 := by norm_num
    have : (2 : Nat) ^ 20 = 1048576 := by norm_num
    omega
  rw [hi]

theorem init_paging_loop_exit (nframes : Nat) (kmalloc_ap : Nat → Kmalloc) (fuel i : Nat)
    (s : PagingState) (h : ¬ i < s.placement_address) :
    init_paging_loop nframes kmalloc_ap (fuel + 1) i s = some s := by
  unfold init_paging_loop
  rw [if_neg h]

theorem init_paging_loop_stale (fuel : Nat) :
    init_paging_loop init_nframes stale_kmalloc_ap (fuel + 5) 0
        ⟨List.replicate 128 0, PageDirectory.empty, 0x3000⟩
      = some (PagingState.mk (List.replicate 128 0)
          (PageDirectory.mk (PageDirectory.empty.tables.set 0 (some stale_table))
            (PageDirectory.empty.tables_physical.set 0 (u32 0x3000 ||| 0x7)))
          0x4000) := by
  have hlen0 : PageDirectory.empty.tables.length = 1024 := List.length_replicate _ _
  have hx : ∀ j, j < 1024 → stale_table.pages[j]? = some ⟨1, 1, 1, 5⟩ :=
    fun j hj => getElem?_replicate_lt 1024 j _ hj
  have hf : (⟨1, 1, 1, 5⟩ : Page).frame ≠ 0 := by decide
  have hslot1 : (PageDirectory.empty.tables.set 0 (some stale_table)).getD 0 none
      = some stale_table := getD_set_table _ _ _ (by rw [hlen0]; norm_num)
  have h0 : init_paging_step init_nframes stale_kmalloc_ap (0 * 0x1000)
      ⟨List.replicate 128 0, PageDirectory.empty, 0x3000⟩
      = PagingState.mk (List.replicate 128 0)
          (PageDirectory.mk (PageDirectory.empty.tables.set 0 (some stale_table))
            (PageDirectory.empty.tables_physical.set 0 (u32 0x3000 ||| 0x7))) 0x4000 :=
    init_paging_step_new_mapped init_nframes stale_kmalloc_ap 0
      ⟨List.replicate 128 0, PageDirectory.empty, 0x3000⟩ ⟨1, 1, 1, 5⟩ (by norm_num) hlen0
      (empty_slot _) (hx _ (by norm_num)) hf
  have h1 := init_paging_step_mapped init_nframes stale_kmalloc_ap 1
    (PagingState.mk (List.replicate 128 0)
      (PageDirectory.mk (PageDirectory.empty.tables.set 0 (some stale_table))
        (PageDirectory.empty.tables_physical.set 0 (u32 0x3000 ||| 0x7))) 0x4000)
    stale_table ⟨1, 1, 1, 5⟩ (by norm_num) hslot1 (hx _ (by norm_num)) hf
  have h2 := init_paging_step_mapped init_nframes stale_kmalloc_ap 2
    (PagingState.mk (List.replicate 128 0)
      (PageDirectory.mk (PageDirectory.empty.tables.set 0 (some stale_table))
        (PageDirectory.empty.tables_physical.set 0 (u32 0x3000 ||| 0x7))) 0x4000)
    stale_table ⟨1, 1, 1, 5⟩ (by norm_num) hslot1 (hx _ (by norm_num)) hf
  have h3 := init_paging_step_mapped init_nframes stale_kmalloc_ap 3
    (PagingState.mk (List.replicate 128 0)
      (PageDirectory.mk (PageDirectory.empty.tables.set 0 (some stale_table))
        (PageDirectory.empty.tables_physical.set 0 (u32 0x3000 ||| 0x7))) 0x4000)
    stale_table ⟨1, 1, 1, 5⟩ (by norm_num) hslot1 (hx _ (by norm_num)) hf
  show init_paging_loop init_nframes stale_kmalloc_ap (fuel + 4 + 1) (0 * 0x1000) _ = _
  rw [init_paging_loop_enter_page _ _ (fuel + 4) 0 _ (by decide) (by norm_num), h0]
  rw [init_paging_loop_enter_page _ _ (fuel + 3) 1 _ (by decide) (by norm_num), h1]
  rw [init_paging_loop_enter_page _ _ (fuel + 2) 2 _ (by decide) (by norm_num), h2]
  rw [init_paging_loop_enter_page _ _ (fuel + 1) 3 _ (by decide) (by norm_num), h3]
  rw [init_paging_loop_exit _ _ fuel _ _ (by decide)]

/-- C18: evaluation of the loop of `init_paging` from the all-clear bitmap of
128 words, the directory without tables and the watermark `0x3000`, when the
allocator hands back a table whose entries hold `present = rw = user = 1` and
`frame = 5`.  `get_page` installs the table as it is, `alloc_frame` returns at
once on every entry because its `frame` is not 0, and the loop ends at the
watermark `0x4000` with no bit of the bitmap set; the entries of the
page-aligned addresses `0`, `0x1000`, `0x2000` and `0x3000` below the
watermark all have `frame = 5`, not `a/0x1000`. -/
theorem init_paging_stale_tables_not_identity :
    ∃ s, init_paging_loop init_nframes stale_kmalloc_ap 4097 0
        ⟨List.replicate 128 0, PageDirectory.empty, 0x3000⟩ = some s ∧
      s.placement_address = 0x4000 ∧
      s.frames = List.replicate 128 0 ∧
      (get_page 0x1000 0 s.dir PageTable.zero 0).1 = some ⟨0, 1⟩ ∧
      s.dir.entry ⟨0, 0⟩ = some ⟨1, 1, 1, 5⟩ ∧
      s.dir.entry ⟨0, 1⟩ = some ⟨1, 1, 1, 5⟩ ∧
      s.dir.entry ⟨0, 2⟩ = some ⟨1, 1, 1, 5⟩ ∧
      s.dir.entry ⟨0, 3⟩ = some ⟨1, 1, 1, 5⟩ := by
  have hlen0 : PageDirectory.empty.tables.length = 1024 := List.length_replicate _ _
  have hx : ∀ j, j < 1024 → stale_table.pages[j]? = some ⟨1, 1, 1, 5⟩ :=
    fun j hj => getElem?_replicate_lt 1024 j _ hj
  have hslot1 : (PageDirectory.empty.tables.set 0 (some stale_table)).getD 0 none
      = some stale_table := getD_set_table _ _ _ (by rw [hlen0]; norm_num)
  have hidx : u32 0x1000 / 0x1000 / 1024 = 0 := by decide
  have hpage : u32 0x1000 / 0x1000 % 1024 = 1 := by decide
  refine ⟨_, init_paging_loop_stale 4092, rfl, rfl, ?_, ?_, ?_, ?_, ?_⟩
  · rw [get_page_present 0x1000 0 _ PageTable.zero 0 stale_table (by rw [hidx]; exact hslot1),
      hidx, hpage]
  · rw [entry_eq _ 0 0 stale_table hslot1]; exact hx 0 (by norm_num)
  · rw [entry_eq _ 0 1 stale_table hslot1]; exact hx 1 (by norm_num)
  · rw [entry_eq _ 0 2 stale_table hslot1]; exact hx 2 (by norm_num)
  · rw [entry_eq _ 0 3 stale_table hslot1]; exact hx 3 (by norm_num)

/-! ## The address loaded into CR3 -/

/-- C17, as stated, fails when the array does not lie where the address used
by the code is the physical address.  The directory in force is built by the
code itself: `get_page(0x00400000, 1, dir)` on a directory without tables,
then `alloc_frame` on the returned entry with an all-clear bitmap, which maps
the page `0x400` to frame 0.  For a directory at `0x003FF000` whose array
`tables_physical` lies at offset `0x1000`, `switch_page_directory` called with
translation on loads CR3 with the pointer `0x00400000`, while the physical
address of the array is 0. -/
theorem switch_page_directory_not_physical :
    (alloc_frame (List.replicate 128 0) 4096 ⟨0, 0, 0, 0⟩ 1 1).2 = ⟨1, 1, 0, 0⟩ ∧
    (get_page 0x00400000 1 PageDirectory.empty PageTable.zero 0x5000).1 = some ⟨1, 0⟩ ∧
    (switch_page_directory ⟨0, 0, 0x80000011⟩ 0x003FF000 0x1000).cr3 = 0x00400000 ∧
    physical_address 0x80000011
      ((get_page 0x00400000 1 PageDirectory.empty PageTable.zero 0x5000).2.setEntry ⟨1, 0⟩
        (alloc_frame (List.replicate 128 0) 4096 ⟨0, 0, 0, 0⟩ 1 1).2)
      (0x003FF000 + 0x1000) = some 0 := by
  have halloc : (alloc_frame (List.replicate 128 0) 4096 ⟨0, 0, 0, 0⟩ 1 1).2 = ⟨1, 1, 0, 0⟩ := by
    decide
  have hlen0 : PageDirectory.empty.tables.length = 1024 := List.length_replicate _ _
  have hidx : u32 0x00400000 / 0x1000 / 1024 = 1 := by decide
  have hpage : u32 0x00400000 / 0x1000 % 1024 = 0 := by decide
  have hget := get_page_absent_make 0x00400000 1 PageDirectory.empty PageTable.zero 0x5000
    (by norm_num) (empty_slot _)
  rw [hidx, hpage] at hget
  have hslot : (PageDirectory.empty.tables.set 1 (some PageTable.zero)).getD 1 none
      = some PageTable.zero := getD_set_table _ _ _ (by rw [hlen0]; norm_num)
  have hlen1 : (PageDirectory.empty.tables.set 1 (some PageTable.zero)).length = 1024 := by
    rw [List.length_set]; exact hlen0
  refine ⟨halloc, ?_, by decide, ?_⟩
  · rw [hget]
  · rw [hget, halloc]
    dsimp only
    rw [setEntry_eq _ 1 0 PageTable.zero _ hslot]
    unfold physical_address
    rw [if_neg (by decide)]
    have haddr : u32 (0x003FF000 + 0x1000) = 0x00400000 := by decide
    have hi2 : (0x00400000 : Nat) / 0x1000 / 1024 = 1 := by decide
    have hp2 : (0x00400000 : Nat) / 0x1000 % 1024 = 0 := by decide
    rw [haddr, hi2, hp2]
    unfold PageDirectory.entry
    dsimp only
    rw [getD_set_table _ _ _ (by rw [hlen1]; norm_num)]
    dsimp only
    have hp : (PageTable.zero.pages.set 0 ⟨1, 1, 0, 0⟩)[0]? = some ⟨1, 1, 0, 0⟩ := by
      rw [List.getElem?_set, if_pos rfl, if_pos]
      show 0 < (List.replicate 1024 _).length
      rw [List.length_replicate]; norm_num
    rw [hp]
    decide

end Paging
